import Mathlib

/-!
Shallow embedding of `zipcode.py` (closest-facilities-lookup).

The script reads employee rows (`Name`, `Employee Zip`) and facility rows
(`Facility Zip`, `Airport Code`), checks connectivity, queries a distance
provider in batches of 10 destinations, selects the 3 nearest facilities per
employee, and writes a single-sheet spreadsheet.

Conventions of the embedding:
* Python `str` values are Lean `String`s; `str(x)` on a string is the identity
  (`pyStr`).
* Python `float` values are modelled as exact rationals `ℚ`; the distance
  texts the provider returns are plain nonnegative decimal literals
  (optionally with thousands separators), for which `float` parsing is exact.
* Fallible Python code is modelled in `Except PyError`; an uncaught exception
  aborts the run with exit status 1, a normal return exits with status 0.
* The provider response element for one destination either carries a
  `distance.text` field (`some text`) or no distance field (`none`).
-/

/-- Python exception classes that can be raised by the modelled code paths. -/
inductive PyError where
  | nameError
  | valueError
  | keyError
  | indexError
deriving DecidableEq

/-- Python `str(x)` applied to a value that is already a string (`zipcode.py`
converts facility and employee zip codes with `str(...)`; on `str` input this
is the identity). -/
def pyStr (s : String) : String := s

/-- Split a character list at every separator satisfying `p`, keeping empty
pieces, as Python `str.split(sep)` does. -/
def splitPred (p : Char → Bool) : List Char → List (List Char)
  | [] => [[]]
  | a :: as =>
    match splitPred p as, p a with
    | r, true => [] :: r
    | [], false => [[a]]
    | g :: gs, false => (a :: g) :: gs

/-- Python `s.split(sep)` for a one-character separator (keeps empty pieces). -/
def pySplitOn (sep : Char) (s : String) : List String :=
  (splitPred (· == sep) s.data).map (fun cs => (⟨cs⟩ : String))

/-- Python `s.split()` with no argument: split on whitespace runs and drop
empty pieces. -/
def pySplitWs (s : String) : List String :=
  ((splitPred (·.isWhitespace) s.data).filter (fun g => !g.isEmpty)).map
    (fun cs => (⟨cs⟩ : String))

/-- Python `s.replace(',', '')`: remove every comma. -/
def stripCommas (s : String) : String := ⟨s.data.filter (fun c => c != ',')⟩

/-- Numeric value of a digit string (most significant digit first). -/
def digitsToNat (cs : List Char) : ℕ :=
  cs.foldl (fun a c => 10 * a + (c.toNat - 48)) 0

/-- Python `float(s)` on the nonnegative decimal literals occurring in the
provider's distance texts (digits with an optional single decimal point);
`none` models the `ValueError` raised on any other input. -/
def pyFloat (s : String) : Option ℚ :=
  match splitPred (· == '.') s.data with
  | [a] =>
    if !a.isEmpty && a.all (·.isDigit) then some (digitsToNat a) else none
  | [a, b] =>
    if (!a.isEmpty || !b.isEmpty) && a.all (·.isDigit) && b.all (·.isDigit) then
      some ((digitsToNat a : ℚ) + (digitsToNat b : ℚ) / (10 : ℚ) ^ b.length)
    else none
  | _ => none

/-- The sort key of `main` (line 178): `float(x[1].replace(',', '').split()[0])`,
i.e. strip thousands separators, take the leading whitespace-delimited token,
parse it as a number. -/
def sortKey (s : String) : Option ℚ :=
  ((pySplitWs (stripCommas s)).head?).bind pyFloat

/-- The kilometre value parsed by `generate_output_file` (line 134):
`float(distance.split()[0].replace(',', ''))`. -/
def cellKm (s : String) : Option ℚ :=
  ((pySplitWs s).head?).bind (fun t => pyFloat (stripCommas t))

/-- `km_to_miles` from `zipcode.py`: `0.621371 * km`. -/
def km_to_miles (km : ℚ) : ℚ := (621371 : ℚ) / 1000000 * km

/-- Python `int(...)` on a float: truncation toward zero
(`Int.tdiv` is truncated division). -/
def ratTrunc (q : ℚ) : ℤ := q.num.tdiv q.den

/-- Whole-mile distance written to the report (lines 134–135):
`int(km_to_miles(float(distance.split()[0].replace(',', ''))))`. -/
def distanceMiles (s : String) : Option ℤ :=
  (cellKm s).map (fun q => ratTrunc (km_to_miles q))

/-- Comparator underlying the Python stable sort
`facility_distances.sort(key=lambda x: float(x[1].replace(',', '').split()[0]))`:
compare entries by their parsed sort keys.  The `none` cases are never reached
on inputs where every key parses (Python would have raised `ValueError`
before comparing). -/
def keyLe (a b : String × String) : Bool :=
  match sortKey a.2, sortKey b.2 with
  | some x, some y => decide (x ≤ y)
  | none, _ => true
  | some _, none => false

/-- The in-place stable sort of line 178.  Python's `list.sort` is stable, and
a stable sort by a total transitive comparator is extensionally unique, so it
is modelled by insertion sort with `keyLe`; if some key fails to parse the
sort raises `ValueError`. -/
def sortEntries (l : List (String × String)) : Except PyError (List (String × String)) :=
  if l.all (fun x => (sortKey x.2).isSome) then
    .ok (l.insertionSort (fun a b => keyLe a b = true))
  else .error .valueError

/-- Lines 178–179 of `main`: sort the per-employee distance list by parsed
kilometre value and keep the first three entries. -/
def select_top3 (l : List (String × String)) : Except PyError (List (String × String)) :=
  (sortEntries l).map (fun s => s.take 3)

/-- The provider batch ceiling (`batch_size = 10`, line 73). -/
def batch_size : ℕ := 10

/-- Line 74: `[facility_zips[i:i + batch_size] for i in range(0, len(facility_zips), batch_size)]`
with `batch_size = 10`: consecutive chunks of ten, the last chunk possibly
shorter. -/
def facilityBatches : List String → List (List String)
  | a :: b :: c :: d :: e :: f :: g :: h :: i :: j :: rest =>
    [a, b, c, d, e, f, g, h, i, j] :: facilityBatches rest
  | [] => []
  | l => [l]

/-- The chunk lengths produced by slicing a list of `n` elements into
consecutive chunks of ten (reference shape for `facilityBatches`). -/
def natChunkLens : ℕ → List ℕ
  | 0 => []
  | n + 10 => 10 :: natChunkLens n
  | n => [n]

/-- Behaviour of a distance provider: an origin and a pipe-joined destination
batch yield one response element per destination, each element either carrying
a distance text (`some`) or no distance field (`none`).  Modelled from the
spec (§4.2): the repository never defines `fetch_distance`, the function that
would implement this contract. -/
abbrev Provider := String → String → List (Option String)

/-- The top-level names bound by the module `zipcode.py` (lines 19–22, 25, 40,
60, 94, 107, 143). -/
def moduleDefs : List String :=
  ["API_KEY", "INPUT_FILE", "FACILITIES_FILE", "OUTPUT_FILE",
   "test_network_connectivity", "test_api_connection", "process_distances_batch",
   "km_to_miles", "generate_output_file", "main"]

/-- Python resolves the global name `fetch_distance` at call time (line 81): a
binding, had the module defined one, would implement the provider contract;
an unbound name raises `NameError`. -/
def fetchBindingOf (p : Provider) : Option Provider :=
  if moduleDefs.contains "fetch_distance" then some p else none

/-- The batch loop of `process_distances_batch` (lines 78–82): for each batch
join the destinations with `'|'`, await `fetch_distance`, and extend
`distances` with the returned elements.  Also records the issued
(origin, destinations) calls in order. -/
def batchLoop (fb : Option Provider) (origin : String) :
    List (List String) → Except PyError (List (Option String) × List (String × String))
  | [] => .ok ([], [])
  | b :: rest =>
    match fb with
    | none => .error .nameError
    | some f => do
      let (ds, cs) ← batchLoop (some f) origin rest
      .ok (f origin (String.intercalate "|" b) ++ ds,
        (origin, String.intercalate "|" b) :: cs)

/-- The result loop of `process_distances_batch` (lines 84–91): zip the
facility zips with the response elements; keep `(str(zip), distance text)`
when the element has a distance field, otherwise print a diagnostic naming
the facility.  Returns (result, diagnostics printed). -/
def buildResult : List String → List (Option String) → List (String × String) × List String
  | [], _ => ([], [])
  | _ :: _, [] => ([], [])
  | z :: zs, d :: ds =>
    let r := buildResult zs ds
    match d with
    | some t => ((pyStr z, t) :: r.1, r.2)
    | none => (r.1, ("Distance data not available for facility " ++ pyStr z ++ ".") :: r.2)

/-- `process_distances_batch` (lines 60–91): batch the facility zips, collect
the provider elements batch by batch, then pair them back with the facility
zips.  Returns (result, diagnostics, provider calls issued). -/
def process_distances_batch (fb : Option Provider) (employee_zip : String)
    (facility_zips : List String) :
    Except PyError (List (String × String) × List String × List (String × String)) := do
  let facility_batches := (facilityBatches facility_zips).map (List.map pyStr)
  let (distances, calls) ← batchLoop fb employee_zip facility_batches
  let r := buildResult facility_zips distances
  .ok (r.1, r.2, calls)

/-- Outcome of the probe `session.get('http://www.google.com')` (line 34). -/
inductive NetOutcome where
  | connError
  | response (status : ℕ)

/-- `test_network_connectivity` (lines 25–37): true on HTTP status 200, false
on any other status, false on `aiohttp.ClientConnectionError` (the only
exception the code can catch there). -/
def test_network_connectivity : NetOutcome → Bool
  | .connError => false
  | .response s => s == 200

/-- Outcome of the sample Distance Matrix query of `test_api_connection`
(lines 50–57): a connection error, or a parsed JSON body with an optional
`status` field. -/
inductive ApiOutcome where
  | connError
  | response (status : Option String)

/-- `test_api_connection` (lines 40–57): true iff `data['status'] == 'OK'`;
a body without a `status` field raises `KeyError` (only
`ClientConnectionError` is caught). -/
def test_api_connection : ApiOutcome → Except PyError Bool
  | .connError => .ok false
  | .response none => .error .keyError
  | .response (some s) => .ok (s == "OK")

/-- One `facility_codes_mapping[str(...)] = ...` assignment (lines 167–169):
a Python dict update keeps the position of an existing key and appends a new
key at the end. -/
def insertMapping (m : List (String × String)) (k v : String) : List (String × String) :=
  if m.any (fun p => p.1 == k) then
    m.map (fun p => if p.1 == k then (k, v) else p)
  else m ++ [(k, v)]

/-- `facility_codes_mapping` built from the facility rows (lines 167–169). -/
def buildMapping (rows : List (String × String)) : List (String × String) :=
  rows.foldl (fun m r => insertMapping m (pyStr r.1) r.2) []

/-- Python `facility_codes_mapping[k]` (line 137); `none` models the
`KeyError` raised when the key is absent. -/
def lookupMapping (m : List (String × String)) (k : String) : Option String :=
  (m.find? (fun p => p.1 == k)).map Prod.snd

/-- Line 174: `str(row['Employee Zip']).split('.')[0]` — drop everything from
the first `'.'` on (the split list is never empty). -/
def stripDecimal (s : String) : String := (pySplitOn '.' s).headD ""

/-- A spreadsheet cell value: openpyxl receives strings (names, zip codes,
airport codes) and integers (whole miles). -/
inductive CellValue where
  | str (s : String)
  | int (z : ℤ)
deriving DecidableEq

/-- The sequence of `ws.cell(row=..., column=..., value=...)` writes, in
program order. -/
abbrev Sheet := List ((ℕ × ℕ) × CellValue)

/-- The value shown at a (row, column) position: the last write wins; a cell
never written is blank (`none`). -/
def cellAt (s : Sheet) (rc : ℕ × ℕ) : Option CellValue :=
  s.foldl (fun acc w => if w.1 = rc then some w.2 else acc) none

/-- One entry of `data` in `main`: the normalized employee zip and the up to
three (facility zip, distance text) pairs kept for it (line 179). -/
abbrev Entry := String × List (String × String)

/-- Header writes of `generate_output_file` (lines 122–125), one loop
iteration per `i in range(3)`. -/
def headerLoop : List ℕ → Sheet
  | [] => []
  | i :: is =>
    [((1, i + 3), CellValue.str ("Closest Facility " ++ toString (i + 1))),
     ((1, i + 6), CellValue.str ("Distance " ++ toString (i + 1) ++ " (miles)")),
     ((1, i + 9), CellValue.str ("Facility " ++ toString (i + 1) ++ " Airport Code"))] ++
    headerLoop is

/-- All header writes of `generate_output_file` (lines 120–125). -/
def headerWrites : Sheet :=
  [((1, 1), CellValue.str "Employee Name"), ((1, 2), CellValue.str "Employee Zip")] ++
  headerLoop [0, 1, 2]

/-- The facility loop of `generate_output_file` (lines 131–138) for employee
row `idx`, starting at facility index `i`: facility zip in column `i+3`, whole
miles in column `i+6`, airport code (dict lookup) in column `i+9`. -/
def facLoop (mapping : List (String × String)) (idx : ℕ) :
    ℕ → List (String × String) → Except PyError Sheet
  | _, [] => .ok []
  | i, (facility_zip, distance) :: rest => do
    let fz := pyStr facility_zip
    let km ← match cellKm distance with
      | some q => Except.ok q
      | none => Except.error PyError.valueError
    let code ← match lookupMapping mapping fz with
      | some c => Except.ok c
      | none => Except.error PyError.keyError
    let ws ← facLoop mapping idx (i + 1) rest
    .ok ([((idx, i + 3), CellValue.str fz),
          ((idx, i + 6), CellValue.int (ratTrunc (km_to_miles km))),
          ((idx, i + 9), CellValue.str code)] ++ ws)

/-- One employee data row of `generate_output_file` (lines 127–138): the
`employee_names[idx - 2]` lookup, the name and zip cells, then the facility
loop. -/
def rowWrites (mapping : List (String × String)) (names : List String) (idx : ℕ)
    (entry : Entry) : Except PyError Sheet := do
  let name ← match names.get? (idx - 2) with
    | some n => Except.ok n
    | none => Except.error PyError.indexError
  let ws ← facLoop mapping idx 0 entry.2
  .ok ([((idx, 1), CellValue.str name), ((idx, 2), CellValue.str entry.1)] ++ ws)

/-- The `enumerate(data, start=2)` loop of `generate_output_file`
(lines 127–138). -/
def dataRows (mapping : List (String × String)) (names : List String) :
    ℕ → List Entry → Except PyError Sheet
  | _, [] => .ok []
  | idx, e :: rest => do
    let w ← rowWrites mapping names idx e
    let ws ← dataRows mapping names (idx + 1) rest
    .ok (w ++ ws)

/-- `generate_output_file` (lines 107–140): a single sheet titled "Results",
the header row, one data row per entry, saved once at the end. -/
def generate_output_file (data : List Entry) (mapping : List (String × String))
    (names : List String) : Except PyError (String × Sheet) :=
  (dataRows mapping names 2 data).map (fun rows => ("Results", headerWrites ++ rows))

/-- The environment of one run: precheck outcomes, the parsed rows of
`input.csv` (`Name`, `Employee Zip`) and of `facilities.csv`
(`Facility Zip`, `Airport Code`), and the provider behaviour a
`fetch_distance` binding would have (spec §4.2). -/
structure Env where
  netOutcome : NetOutcome
  apiOutcome : ApiOutcome
  inputRows : List (String × String)
  facilityRows : List (String × String)
  provider : Provider

/-- Result of `main`: abort at a precheck, crash with an uncaught exception,
or finish having saved the output workbook. -/
inductive MainResult where
  | abortedNetwork
  | abortedApi
  | crashed (e : PyError)
  | finished (data : List Entry) (sheet : String × Sheet)

/-- Python process exit status: an uncaught exception terminates the
interpreter with status 1; otherwise `main` returns and the process exits
with status 0 — including the precheck-failure paths, which `return` normally
(lines 150–159). -/
def exitStatus : MainResult → ℕ
  | .crashed _ => 1
  | _ => 0

/-- The saves performed (`wb.save`, line 140, reached exactly once from line
183): completion writes the output file exactly once; aborts and crashes
write nothing. -/
def outputWrites : MainResult → List (String × Sheet)
  | .finished _ sheet => [sheet]
  | _ => []

/-- The body of the per-employee loop of `main` (lines 173–180): normalize the
employee zip, aggregate the distances, stably sort them by parsed kilometre
value, keep the first three. -/
def processEmployee (fb : Option Provider) (keys : List String) (row : String × String) :
    Except PyError (Entry × List String × List (String × String)) := do
  let employee_zip := stripDecimal (pyStr row.2)
  let (result, diags, calls) ← process_distances_batch fb employee_zip keys
  let sorted ← sortEntries result
  .ok ((employee_zip, sorted.take 3), diags, calls)

/-- The employee loop of `main` (lines 172–180), accumulating `data` and the
printed progress and diagnostic lines. -/
def employeesLoop (fb : Option Provider) (keys : List String) :
    List (String × String) → Except PyError (List Entry × List String)
  | [] => .ok ([], [])
  | row :: rest => do
    let (entry, diags, _calls) ← processEmployee fb keys row
    let (es, log) ← employeesLoop fb keys rest
    .ok (entry :: es,
      ((("Processing distances for employee with zip " ++ entry.1 ++ "...") :: diags) ++
        ["Distances processed for employee with zip " ++ entry.1 ++ "."]) ++ log)

/-- `main` (lines 143–184), parameterised by the resolution of the global name
`fetch_distance`; returns the result together with the lines printed on the
non-crashing paths. -/
def runWith (fb : Option Provider) (env : Env) : MainResult × List String :=
  let log0 := ["Version 1.0", "Testing network connectivity..."]
  if test_network_connectivity env.netOutcome = false then
    (.abortedNetwork, log0 ++ ["Network connectivity test failed. Exiting."])
  else
    let log1 := log0 ++ ["Network connectivity test successful.", "Testing API connection..."]
    match test_api_connection env.apiOutcome with
    | .error e => (.crashed e, log1)
    | .ok false => (.abortedApi, log1 ++ ["API connection test failed. Exiting."])
    | .ok true =>
      let log2 := log1 ++ ["API connection test successful."]
      let mapping := buildMapping env.facilityRows
      let keys := mapping.map Prod.fst
      let names := env.inputRows.map Prod.fst
      match employeesLoop fb keys env.inputRows with
      | .error e => (.crashed e, log2)
      | .ok (data, log3) =>
        match generate_output_file data mapping names with
        | .error e => (.crashed e, log2 ++ log3 ++ ["Generating output file..."])
        | .ok sheet =>
          (.finished data sheet,
            log2 ++ log3 ++ ["Generating output file...",
              "Results have been saved to output.xlsx."])

/-- The run as shipped: `fetch_distance` resolved against the module's actual
top-level names. -/
def run_actual (env : Env) : MainResult × List String :=
  runWith (fetchBindingOf env.provider) env

/-- Modelled from the spec: the run with `fetch_distance` bound to a provider
implementation satisfying §4.2 — the piece missing from the repository. -/
def run_spec (env : Env) : MainResult × List String :=
  runWith (some env.provider) env

/-- Modelled from the spec: a provider implementation returns distance texts
in the provider's numeric format — "numeric value + unit text" (spec §6), so
both numeric parses of a returned text succeed. -/
def wellFormedTexts (p : Provider) : Prop :=
  ∀ origin dests t, some t ∈ p origin dests → (sortKey t).isSome ∧ (cellKm t).isSome

/-- A concrete environment on which both prechecks pass, with one employee row
("Jane Doe", zip "10001.0"), one facility ("00501" with airport code "JFK"),
and a provider that answers every batch with a single 10 km distance. -/
def envHappy : Env :=
  { netOutcome := .response 200
    apiOutcome := .response (some "OK")
    inputRows := [("Jane Doe", "10001.0")]
    facilityRows := [("00501", "JFK")]
    provider := fun _ _ => [some "10 km"] }

/-- The same environment with a failing network probe (HTTP 503). -/
def envNetDown : Env :=
  { envHappy with netOutcome := .response 503 }

/-! ## General lemmas about the embedded operations -/

/-- Truncation agrees with the floor on nonnegative rationals (the only values
`int(km_to_miles(...))` is applied to). -/
theorem ratTrunc_eq_floor (q : ℚ) (h : 0 ≤ q) : ratTrunc q = ⌊q⌋ := by
  rw [ratTrunc, Rat.floor_def]
  exact Int.tdiv_eq_ediv (Rat.num_nonneg.mpr h) (Int.natCast_nonneg _)

/-- The sort comparator is total. -/
theorem keyLe_total (a b : String × String) : keyLe a b = true ∨ keyLe b a = true := by
  unfold keyLe
  rcases h1 : sortKey a.2 with _ | x <;> rcases h2 : sortKey b.2 with _ | y <;> simp
  exact le_total x y

/-- The sort comparator is transitive. -/
theorem keyLe_trans (a b c : String × String) (h1 : keyLe a b = true) (h2 : keyLe b c = true) :
    keyLe a c = true := by
  unfold keyLe at *
  rcases ha : sortKey a.2 with _ | x <;> rcases hb : sortKey b.2 with _ | y <;>
    rcases hc : sortKey c.2 with _ | z <;> simp_all
  exact le_trans h1 h2

/-- Stability of the modelled sort: the entries whose key parses to a given
value `k` appear in the sorted list exactly as they appear in the input. -/
theorem insertionSort_filter_key (l : List (String × String)) (k : ℚ) :
    ((l.insertionSort (fun a b => keyLe a b = true)).filter
      (fun x => decide (sortKey x.2 = some k))) =
    l.filter (fun x => decide (sortKey x.2 = some k)) := by
  set K : String × String → Bool := fun x => decide (sortKey x.2 = some k) with hK
  have hPair : (l.filter K).Pairwise (fun a b => keyLe a b = true) := by
    apply List.pairwise_of_forall_mem_list
    intro a ha b hb
    have ha' : sortKey a.2 = some k := by simpa [hK] using (List.mem_filter.mp ha).2
    have hb' : sortKey b.2 = some k := by simpa [hK] using (List.mem_filter.mp hb).2
    simp [keyLe, ha', hb']
  have hsub : List.Sublist (l.filter K) (l.insertionSort (fun a b => keyLe a b = true)) :=
    List.sublist_insertionSort hPair (List.filter_sublist l)
  have hsub2 : List.Sublist (l.filter K)
      ((l.insertionSort (fun a b => keyLe a b = true)).filter K) := by
    have := hsub.filter K
    simpa using this
  have hperm : List.Perm ((l.insertionSort (fun a b => keyLe a b = true)).filter K)
      (l.filter K) :=
    (List.perm_insertionSort _ l).filter K
  exact (hsub2.eq_of_length hperm.length_eq.symm).symm

/-! ## Claims C2 and C3 -/

/-- C2: for every non-empty input sequence of (facility zip, distance text)
pairs whose distance texts parse, the top-3 selection returns at most 3
entries, sorted ascending by the kilometre value parsed from the distance
text, ties preserving the original provider-response order (the equal-key
entries of the output are an initial segment of the equal-key entries of the
input, in input order), and every returned facility zip occurs in the input
sequence. -/
theorem C2_select_top3 (l : List (String × String)) (hne : l ≠ [])
    (hp : ∀ x ∈ l, (sortKey x.2).isSome) :
    ∃ out, select_top3 l = .ok out ∧
      out.length ≤ 3 ∧
      out.Pairwise (fun a b => ∀ x y, sortKey a.2 = some x → sortKey b.2 = some y → x ≤ y) ∧
      (∀ x ∈ out, x.1 ∈ l.map Prod.fst) ∧
      (∀ k : ℚ, ∃ t, l.filter (fun x => decide (sortKey x.2 = some k)) =
        out.filter (fun x => decide (sortKey x.2 = some k)) ++ t) := by
  have hall : l.all (fun x => (sortKey x.2).isSome) = true :=
    List.all_eq_true.mpr hp
  set r : String × String → String × String → Prop := fun a b => keyLe a b = true with hr
  set s := l.insertionSort (fun a b => keyLe a b = true) with hs
  refine ⟨s.take 3, ?_, ?_, ?_, ?_, ?_⟩
  · simp [select_top3, sortEntries, hall, hs, Except.map]
  · simp [List.length_take_le 3 s]
  · haveI : IsTotal (String × String) r := ⟨fun a b => keyLe_total a b⟩
    haveI : IsTrans (String × String) r := ⟨fun a b c => keyLe_trans a b c⟩
    have hsorted : s.Pairwise r := List.sorted_insertionSort _ l
    have htake : (s.take 3).Pairwise r := hsorted.sublist (List.take_sublist 3 s)
    refine htake.imp ?_
    intro a b hab x y hx hy
    have hab' : keyLe a b = true := hab
    rw [keyLe, hx, hy] at hab'
    simpa using hab'
  · intro x hx
    have hxs : x ∈ s := (List.take_sublist 3 s).mem hx
    have hxl : x ∈ l := by
      have := List.mem_insertionSort (r := fun a b => keyLe a b = true) (l := l) (x := x)
      rw [← hs] at this
      exact this.mp hxs
    exact List.mem_map_of_mem Prod.fst hxl
  · intro k
    refine ⟨(s.drop 3).filter (fun x => decide (sortKey x.2 = some k)), ?_⟩
    calc l.filter (fun x => decide (sortKey x.2 = some k))
        = s.filter (fun x => decide (sortKey x.2 = some k)) :=
          (insertionSort_filter_key l k).symm
      _ = (s.take 3 ++ s.drop 3).filter (fun x => decide (sortKey x.2 = some k)) := by
          rw [List.take_append_drop]
      _ = (s.take 3).filter (fun x => decide (sortKey x.2 = some k)) ++
          (s.drop 3).filter (fun x => decide (sortKey x.2 = some k)) := by
          rw [List.filter_append]

/-- C2, witnessed on the concrete input [("00501", "10 km"), ("10001", "5 km")]. -/
theorem C2_select_top3_witness :
    ∃ out, select_top3 [("00501", "10 km"), ("10001", "5 km")] = .ok out ∧
      out.length ≤ 3 ∧
      out.Pairwise (fun a b => ∀ x y, sortKey a.2 = some x → sortKey b.2 = some y → x ≤ y) ∧
      (∀ x ∈ out, x.1 ∈ [("00501", "10 km"), ("10001", "5 km")].map Prod.fst) ∧
      (∀ k : ℚ, ∃ t,
        [("00501", "10 km"), ("10001", "5 km")].filter
          (fun x => decide (sortKey x.2 = some k)) =
        out.filter (fun x => decide (sortKey x.2 = some k)) ++ t) :=
  C2_select_top3 [("00501", "10 km"), ("10001", "5 km")] (by decide) (by decide)

/-- C3: distance conversion parses the distance text (thousands separators
stripped, leading token taken, as in `cellKm`), multiplies by 0.621371, and
truncates — does not round — to whole miles; "10 km" yields 6 miles and
"1,000 km" yields 621 miles.  The "3 km" entry separates truncation (1) from
rounding (2). -/
theorem C3_unit_conversion :
    (∀ q : ℚ, km_to_miles q = (0.621371 : ℚ) * q) ∧
    (∀ s, distanceMiles s = (cellKm s).map (fun q => ratTrunc (km_to_miles q))) ∧
    distanceMiles "10 km" = some 6 ∧
    distanceMiles "1,000 km" = some 621 ∧
    distanceMiles "3 km" = some 1 ∧
    round (km_to_miles 3) = 2 := by
  refine ⟨fun q => by norm_num [km_to_miles], fun s => rfl, ?_, ?_, ?_, ?_⟩
  · have h : cellKm "10 km" = some 10 := by decide
    rw [distanceMiles, h, Option.map_some']
    rw [ratTrunc_eq_floor _ (by norm_num [km_to_miles])]
    norm_num [km_to_miles]
  · have h : cellKm "1,000 km" = some 1000 := by decide
    rw [distanceMiles, h, Option.map_some']
    rw [ratTrunc_eq_floor _ (by norm_num [km_to_miles])]
    norm_num [km_to_miles]
  · have h : cellKm "3 km" = some 3 := by decide
    rw [distanceMiles, h, Option.map_some']
    rw [ratTrunc_eq_floor _ (by norm_num [km_to_miles])]
    norm_num [km_to_miles]
  · norm_num [km_to_miles, round_eq]

/-! ## Batching lemmas (claim C4) -/

/-- A list of length at least ten decomposes into ten heads and a tail. -/
theorem exists_ten_cons (l : List String) (hl : 10 ≤ l.length) :
    ∃ a b c d e f g h i j rest,
      l = a :: b :: c :: d :: e :: f :: g :: h :: i :: j :: rest := by
  rcases l with _ | ⟨a, l⟩
  · simp at hl
  rcases l with _ | ⟨b, l⟩
  · simp at hl
  rcases l with _ | ⟨c, l⟩
  · simp at hl
  rcases l with _ | ⟨d, l⟩
  · simp at hl
  rcases l with _ | ⟨e, l⟩
  · simp at hl
  rcases l with _ | ⟨f, l⟩
  · simp at hl
  rcases l with _ | ⟨g, l⟩
  · simp at hl
  rcases l with _ | ⟨h, l⟩
  · simp at hl
  rcases l with _ | ⟨i, l⟩
  · simp at hl
  rcases l with _ | ⟨j, l⟩
  · simp at hl
  exact ⟨a, b, c, d, e, f, g, h, i, j, l, rfl⟩

/-- A list that matches the short arm of `facilityBatches` has at most nine
elements. -/
theorem facilityBatches_short_length (l : List String)
    (h1 : ∀ (a b c d e f g h i j : String) (rest : List String),
      l = a :: b :: c :: d :: e :: f :: g :: h :: i :: j :: rest → False) :
    l.length ≤ 9 := by
  by_contra hc
  obtain ⟨a, b, c, d, e, f, g, h, i, j, rest, rfl⟩ := exists_ten_cons l (by omega)
  exact h1 a b c d e f g h i j rest rfl

/-- Concatenating the batches gives back the original facility list. -/
theorem facilityBatches_flatten (l : List String) : (facilityBatches l).flatten = l := by
  induction l using facilityBatches.induct with
  | case1 a b c d e f g h i j rest ih => simp [facilityBatches, ih]
  | case2 => simp [facilityBatches]
  | case3 l h1 h2 => simp [facilityBatches]

/-- Every batch respects the provider ceiling of ten destinations. -/
theorem facilityBatches_length_le (l : List String) :
    ∀ b ∈ facilityBatches l, b.length ≤ batch_size := by
  induction l using facilityBatches.induct with
  | case1 a b c d e f g h i j rest ih =>
    intro x hx
    rw [facilityBatches] at hx
    rcases List.mem_cons.mp hx with hx | hx
    · simp [hx, batch_size]
    · exact ih x hx
  | case2 => intro x hx; simp [facilityBatches] at hx
  | case3 l h1 h2 =>
    intro x hx
    have hlen := facilityBatches_short_length l h1
    have hxl : x = l := by
      rw [facilityBatches] at hx
      · simpa using hx
      · exact h1
      · exact h2
    rw [hxl, batch_size]
    omega

/-- Every batch except possibly the last has exactly ten destinations. -/
theorem facilityBatches_dropLast (l : List String) :
    ∀ b ∈ (facilityBatches l).dropLast, b.length = batch_size := by
  induction l using facilityBatches.induct with
  | case1 a b c d e f g h i j rest ih =>
    intro x hx
    rw [facilityBatches] at hx
    rcases hrest : facilityBatches rest with _ | ⟨y, ys⟩
    · rw [hrest] at hx; simp at hx
    · rw [hrest] at hx
      rw [List.dropLast_cons₂] at hx
      rcases List.mem_cons.mp hx with hx | hx
      · simp [hx, batch_size]
      · exact ih x (by rw [hrest]; exact hx)
  | case2 => intro x hx; simp [facilityBatches] at hx
  | case3 l h1 h2 =>
    intro x hx
    rw [facilityBatches] at hx
    · simp at hx
    · exact h1
    · exact h2

/-- Evaluation of `natChunkLens` below the chunk size. -/
theorem natChunkLens_small (n : ℕ) (h0 : n ≠ 0) (h9 : n ≤ 9) : natChunkLens n = [n] := by
  have h1 : 1 ≤ n := Nat.one_le_iff_ne_zero.mpr h0
  interval_cases n <;> rfl

/-- The batch sizes depend only on the length of the facility list. -/
theorem facilityBatches_map_length (l : List String) :
    (facilityBatches l).map List.length = natChunkLens l.length := by
  induction l using facilityBatches.induct with
  | case1 a b c d e f g h i j rest ih =>
    show (facilityBatches _).map List.length = _
    rw [facilityBatches]
    simp only [List.map_cons, ih]
    have hlen : (a :: b :: c :: d :: e :: f :: g :: h :: i :: j :: rest).length =
        rest.length + 10 := by simp
    rw [hlen]
    rfl
  | case2 => rfl
  | case3 l h1 h2 =>
    rw [facilityBatches]
    · have h9 := facilityBatches_short_length l h1
      have h0 : l.length ≠ 0 := by
        intro hc
        exact h2 (List.length_eq_zero.mp hc)
      rw [natChunkLens_small l.length h0 h9]
      rfl
    · exact h1
    · exact h2

/-- With `fetch_distance` bound, the batch loop issues one provider call per
batch, in order, and concatenates the per-batch elements in batch order. -/
theorem batchLoop_some (f : Provider) (origin : String) (bs : List (List String)) :
    batchLoop (some f) origin bs =
      .ok ((bs.map (fun b => f origin (String.intercalate "|" b))).flatten,
        bs.map (fun b => (origin, String.intercalate "|" b))) := by
  induction bs with
  | nil => rfl
  | cons b rest ih =>
    rw [batchLoop, ih]
    rfl

/-- `str` leaves the facility zip strings unchanged. -/
theorem map_pyStr (l : List String) : l.map pyStr = l := List.map_id l

/-- Closed form of `process_distances_batch` under a bound `fetch_distance`. -/
theorem process_distances_batch_some (f : Provider) (origin : String) (zips : List String) :
    process_distances_batch (some f) origin zips =
      .ok ((buildResult zips (((facilityBatches zips).map
            (fun b => f origin (String.intercalate "|" b))).flatten)).1,
        (buildResult zips (((facilityBatches zips).map
            (fun b => f origin (String.intercalate "|" b))).flatten)).2,
        (facilityBatches zips).map (fun b => (origin, String.intercalate "|" b))) := by
  rw [process_distances_batch]
  have hb : (facilityBatches zips).map (List.map pyStr) = facilityBatches zips := by
    have hid : List.map (α := String) pyStr = id := funext map_pyStr
    rw [hid, List.map_id]
  rw [hb, batchLoop_some]
  rfl

/-- The facility zips of the aggregated result are a subsequence of the input
facility zips: pairing back preserves the original order. -/
theorem buildResult_fst_sublist (zs : List String) (ds : List (Option String)) :
    List.Sublist ((buildResult zs ds).1.map Prod.fst) zs := by
  induction zs generalizing ds with
  | nil => simp [buildResult]
  | cons z zs ih =>
    rcases ds with _ | ⟨d, ds⟩
    · simp [buildResult]
    · rcases d with _ | t
      · exact (ih ds).cons z
      · exact (ih ds).cons₂ z

/-- C4: the aggregator partitions the facility list into consecutive groups of
ten (only the last group smaller), issues exactly one provider call per group
in group order, concatenates the per-group results in group order — so the
combined result preserves the original facility order — and on a facility
list of size 23 issues exactly 3 calls with batch sizes 10, 10, 3. -/
theorem C4_batching (f : Provider) (origin : String) (zips : List String) :
    (facilityBatches zips).flatten = zips ∧
    (∀ b ∈ (facilityBatches zips).dropLast, b.length = batch_size) ∧
    (∀ b ∈ facilityBatches zips, b.length ≤ batch_size) ∧
    process_distances_batch (some f) origin zips =
      .ok ((buildResult zips (((facilityBatches zips).map
            (fun b => f origin (String.intercalate "|" b))).flatten)).1,
        (buildResult zips (((facilityBatches zips).map
            (fun b => f origin (String.intercalate "|" b))).flatten)).2,
        (facilityBatches zips).map (fun b => (origin, String.intercalate "|" b))) ∧
    List.Sublist (((buildResult zips (((facilityBatches zips).map
        (fun b => f origin (String.intercalate "|" b))).flatten)).1.map Prod.fst)) zips ∧
    (zips.length = 23 →
      (facilityBatches zips).map List.length = [10, 10, 3] ∧
      ((facilityBatches zips).map (fun b => (origin, String.intercalate "|" b))).length = 3) := by
  refine ⟨facilityBatches_flatten zips, facilityBatches_dropLast zips,
    facilityBatches_length_le zips, process_distances_batch_some f origin zips,
    buildResult_fst_sublist _ _, ?_⟩
  intro h23
  have hm := facilityBatches_map_length zips
  rw [h23] at hm
  have hm3 : (facilityBatches zips).map List.length = [10, 10, 3] := by
    rw [hm]; rfl
  refine ⟨hm3, ?_⟩
  have hc := congrArg List.length hm3
  simpa using hc

/-- C4, witnessed on a concrete facility list of size 23. -/
theorem C4_batching_witness :
    (facilityBatches (List.replicate 23 "z")).map List.length = [10, 10, 3] ∧
    (facilityBatches (List.replicate 23 "z")).flatten = List.replicate 23 "z" ∧
    (∀ b ∈ (facilityBatches (List.replicate 23 "z")).dropLast, b.length = batch_size) :=
  ⟨((C4_batching (fun _ _ => []) "10001" (List.replicate 23 "z")).2.2.2.2.2 (by simp)).1,
    (C4_batching (fun _ _ => []) "10001" (List.replicate 23 "z")).1,
    (C4_batching (fun _ _ => []) "10001" (List.replicate 23 "z")).2.1⟩

/-! ## Absence handling (claim C5) -/

/-- Dropping the zip/element pair at an absent position changes nothing in the
aggregated result list. -/
theorem buildResult_eraseIdx (zs : List String) (ds : List (Option String)) (j : ℕ)
    (hd : ds[j]? = some none) :
    (buildResult (zs.eraseIdx j) (ds.eraseIdx j)).1 = (buildResult zs ds).1 := by
  induction zs generalizing ds j with
  | nil => simp [buildResult]
  | cons z zs ih =>
    rcases ds with _ | ⟨d, ds⟩
    · simp at hd
    · rcases j with _ | j
      · have hd0 : d = none := by simpa using hd
        subst hd0
        simp [List.eraseIdx, buildResult]
      · have hd' : ds[j]? = some none := by simpa using hd
        rcases d with _ | t
        · simp [List.eraseIdx, buildResult, ih ds j hd']
        · simp [List.eraseIdx, buildResult, ih ds j hd']

/-- An absent element produces the diagnostic line naming its facility. -/
theorem buildResult_diag (zs : List String) (ds : List (Option String)) (j : ℕ)
    (hd : ds[j]? = some none) (hjz : j < zs.length) :
    ("Distance data not available for facility " ++ pyStr zs[j] ++ ".")
      ∈ (buildResult zs ds).2 := by
  induction zs generalizing ds j with
  | nil => simp at hjz
  | cons z zs ih =>
    rcases ds with _ | ⟨d, ds⟩
    · simp at hd
    · rcases j with _ | j
      · have hd0 : d = none := by simpa using hd
        subst hd0
        simp [buildResult]
      · have hd' : ds[j]? = some none := by simpa using hd
        have hjz' : j < zs.length := by simpa using hjz
        rcases d with _ | t
        · simpa [buildResult] using Or.inr (ih ds j hd' hjz')
        · simpa [buildResult] using ih ds j hd' hjz'

/-- A facility with no duplicate whose element is absent does not occur in the
aggregated result. -/
theorem buildResult_absent_not_mem (zs : List String) (ds : List (Option String)) (j : ℕ)
    (hd : ds[j]? = some none) (hjz : j < zs.length) (hnd : zs.Nodup) :
    zs[j] ∉ ((buildResult zs ds).1.map Prod.fst) := by
  intro hmem
  have h1 : List.Sublist ((buildResult zs ds).1.map Prod.fst) (zs.eraseIdx j) := by
    rw [← buildResult_eraseIdx zs ds j hd]
    exact buildResult_fst_sublist _ _
  have h2 : zs[j] ∈ zs.eraseIdx j := h1.mem hmem
  rw [List.mem_eraseIdx_iff_getElem?] at h2
  obtain ⟨i, hij, hi⟩ := h2
  have hilen : i < zs.length := by
    by_contra hc
    rw [List.getElem?_eq_none (by omega)] at hi
    exact Option.noConfusion hi
  rw [List.getElem?_eq_getElem hilen] at hi
  have hee : zs[i] = zs[j] := by simpa using hi
  exact hij (hnd.getElem_inj_iff.mp hee)

/-- Everything returned by the top-3 selection comes from its input list. -/
theorem select_top3_mem (l out : List (String × String)) (h : select_top3 l = .ok out) :
    ∀ x ∈ out, x ∈ l := by
  unfold select_top3 sortEntries at h
  by_cases hall : l.all (fun x => (sortKey x.2).isSome)
  · simp only [hall, if_pos, Except.map] at h
    have hout : out = (l.insertionSort (fun a b => keyLe a b = true)).take 3 := by
      cases h
      rfl
    subst hout
    intro x hx
    exact (List.mem_insertionSort _).mp ((List.take_sublist _ _).mem hx)
  · simp only [hall, if_neg, Except.map] at h
    cases h

/-- C5: a provider element with no distance field leads to a diagnostic naming
the affected facility, the destination is excluded from the aggregated result
— removing the pair changes nothing for the remaining facilities, so their
entries and relative ranking are unaffected, and the selection output is
literally the same — and (absent duplicates) the facility never appears in the
top-3 output. -/
theorem C5_absence (zips : List String) (elems : List (Option String)) (j : ℕ)
    (hd : elems[j]? = some none) (hjz : j < zips.length) :
    ("Distance data not available for facility " ++ pyStr zips[j] ++ ".")
      ∈ (buildResult zips elems).2 ∧
    (buildResult (zips.eraseIdx j) (elems.eraseIdx j)).1 = (buildResult zips elems).1 ∧
    select_top3 ((buildResult (zips.eraseIdx j) (elems.eraseIdx j)).1) =
      select_top3 ((buildResult zips elems).1) ∧
    (zips.Nodup → ∀ out, select_top3 ((buildResult zips elems).1) = .ok out →
      zips[j] ∉ out.map Prod.fst) := by
  refine ⟨buildResult_diag zips elems j hd hjz, buildResult_eraseIdx zips elems j hd, ?_, ?_⟩
  · rw [buildResult_eraseIdx zips elems j hd]
  · intro hnd out hout hmem
    obtain ⟨x, hx, hx1⟩ := List.mem_map.mp hmem
    have hxr : x ∈ (buildResult zips elems).1 := select_top3_mem _ _ hout x hx
    exact buildResult_absent_not_mem zips elems j hd hjz hnd
      (List.mem_map.mpr ⟨x, hxr, hx1⟩)

/-- C5, witnessed on two facilities of which the second has no distance. -/
theorem C5_absence_witness :
    ("Distance data not available for facility " ++ pyStr "10001" ++ ".")
      ∈ (buildResult ["00501", "10001"] [some "10 km", none]).2 ∧
    (buildResult (["00501", "10001"].eraseIdx 1) ([some "10 km", none].eraseIdx 1)).1 =
      (buildResult ["00501", "10001"] [some "10 km", none]).1 ∧
    (∀ out, select_top3 ((buildResult ["00501", "10001"] [some "10 km", none]).1) = .ok out →
      "10001" ∉ out.map Prod.fst) := by
  have h := C5_absence ["00501", "10001"] [some "10 km", none] 1 (by decide)
    (by decide)
  exact ⟨h.1, h.2.1, h.2.2.2 (by decide)⟩

/-- C7: both connectivity prechecks fail closed — on a connection-level error
they return false and no exception escapes; `test_network_connectivity`
returns true exactly on a 200-status response, and `test_api_connection`
returns true exactly when the provider's own status field is "OK". -/
theorem C7_prechecks :
    test_network_connectivity .connError = false ∧
    test_api_connection .connError = .ok false ∧
    (∀ o, test_network_connectivity o = true ↔ o = .response 200) ∧
    (∀ o, test_api_connection o = .ok true ↔ o = .response (some "OK")) := by
  refine ⟨rfl, rfl, ?_, ?_⟩
  · intro o
    rcases o with _ | s
    · simp [test_network_connectivity]
    · simp [test_network_connectivity]
  · intro o
    rcases o with _ | ⟨_ | s⟩
    · simp [test_api_connection]
    · simp [test_api_connection]
    · simp [test_api_connection]

theorem insertMapping_length (m : List (String × String)) (k v : String) :
    m.length ≤ (insertMapping m k v).length := by
  unfold insertMapping
  split
  · simp
  · simp

theorem foldl_insert_length (rows : List (String × String)) (m : List (String × String)) :
    m.length ≤ (rows.foldl (fun m r => insertMapping m (pyStr r.1) r.2) m).length := by
  induction rows generalizing m with
  | nil => simp
  | cons r rest ih => exact le_trans (insertMapping_length m _ _) (ih _)

theorem buildMapping_ne_nil (rows : List (String × String)) (h : rows ≠ []) :
    buildMapping rows ≠ [] := by
  rcases rows with _ | ⟨r, rest⟩
  · exact absurd rfl h
  · unfold buildMapping
    intro hc
    have h1 : (insertMapping [] (pyStr r.1) r.2).length = 1 := by simp [insertMapping]
    have h2 := foldl_insert_length rest (insertMapping [] (pyStr r.1) r.2)
    rw [List.foldl_cons] at hc
    rw [hc] at h2
    simp [h1] at h2

theorem facilityBatches_ne_nil (l : List String) (h : l ≠ []) : facilityBatches l ≠ [] := by
  induction l using facilityBatches.induct with
  | case1 a b c d e f g h i j rest ih => rw [facilityBatches]; simp
  | case2 => exact absurd rfl h
  | case3 l h1 h2 =>
    rw [facilityBatches]
    · simp
    · exact h1
    · exact h2

theorem batchLoop_none (origin : String) (bs : List (List String)) (h : bs ≠ []) :
    batchLoop none origin bs = .error .nameError := by
  rcases bs with _ | ⟨b, bs⟩
  · exact absurd rfl h
  · rfl

theorem process_distances_batch_none (origin : String) (zips : List String) (h : zips ≠ []) :
    process_distances_batch none origin zips = .error .nameError := by
  have hbn : (facilityBatches zips).map (List.map pyStr) ≠ [] := by
    intro hc
    exact facilityBatches_ne_nil zips h (List.map_eq_nil_iff.mp hc)
  rw [process_distances_batch, batchLoop_none origin _ hbn]
  rfl

theorem employeesLoop_none (keys : List String) (hk : keys ≠ []) (rows : List (String × String))
    (hr : rows ≠ []) : employeesLoop none keys rows = .error .nameError := by
  rcases rows with _ | ⟨row, rest⟩
  · exact absurd rfl hr
  · rw [employeesLoop]
    have hp : processEmployee none keys row = .error .nameError := by
      rw [processEmployee, process_distances_batch_none _ keys hk]
      rfl
    rw [hp]
    rfl

theorem fetchBindingOf_eq_none (p : Provider) : fetchBindingOf p = none := rfl

/-- C1: `fetch_distance` is never defined in the source; hence every run that
passes both connectivity prechecks and has at least one employee row and a
non-empty facility mapping crashes with `NameError` while processing the
first employee, and no output file is ever written. -/
theorem C1_fetch_distance_undefined (env : Env)
    (hn : test_network_connectivity env.netOutcome = true)
    (ha : test_api_connection env.apiOutcome = .ok true)
    (he : env.inputRows ≠ []) (hf : env.facilityRows ≠ []) :
    "fetch_distance" ∉ moduleDefs ∧
    (run_actual env).1 = .crashed .nameError ∧
    outputWrites (run_actual env).1 = [] := by
  have hkeys : (buildMapping env.facilityRows).map Prod.fst ≠ [] := by
    intro hc
    exact buildMapping_ne_nil env.facilityRows hf (List.map_eq_nil_iff.mp hc)
  have hrun : (run_actual env).1 = .crashed .nameError := by
    rw [run_actual, fetchBindingOf_eq_none, runWith]
    rw [if_neg (by rw [hn]; simp)]
    rw [ha]
    simp only [employeesLoop_none _ hkeys _ he]
  exact ⟨by decide, hrun, by rw [hrun]; rfl⟩

/-- C1, witnessed on a concrete environment. -/
theorem C1_witness :
    "fetch_distance" ∉ moduleDefs ∧
    (run_actual envHappy).1 = .crashed .nameError ∧
    outputWrites (run_actual envHappy).1 = [] :=
  C1_fetch_distance_undefined envHappy rfl rfl (by decide) (by decide)

theorem except_bind_ok {e a b : Type} (x : a) (f : a → Except e b) :
    (Except.ok x >>= f) = f x := rfl

theorem buildResult_mem (zs : List String) (ds : List (Option String)) :
    ∀ x ∈ (buildResult zs ds).1, x.1 ∈ zs ∧ some x.2 ∈ ds := by
  induction zs generalizing ds with
  | nil => intro x hx; simp [buildResult] at hx
  | cons z zs ih =>
    intro x hx
    rcases ds with _ | ⟨d, ds⟩
    · simp [buildResult] at hx
    · rcases d with _ | t
      · obtain ⟨h1, h2⟩ := ih ds x hx
        exact ⟨List.mem_cons_of_mem z h1, List.mem_cons_of_mem none h2⟩
      · rcases List.mem_cons.mp hx with hx | hx
        · rw [hx]
          exact ⟨List.mem_cons_self _ _, List.mem_cons_self _ _⟩
        · obtain ⟨h1, h2⟩ := ih ds x hx
          exact ⟨List.mem_cons_of_mem z h1, List.mem_cons_of_mem (some t) h2⟩

theorem sortEntries_ok (l : List (String × String)) (h : ∀ x ∈ l, (sortKey x.2).isSome) :
    sortEntries l = .ok (l.insertionSort (fun a b => keyLe a b = true)) := by
  rw [sortEntries, if_pos (List.all_eq_true.mpr h)]

theorem processEmployee_props (p : Provider) (keys : List String) (row : String × String)
    (hw : wellFormedTexts p) :
    ∃ entry diags calls, processEmployee (some p) keys row = .ok (entry, diags, calls) ∧
      entry.1 = stripDecimal (pyStr row.2) ∧
      entry.2.length ≤ 3 ∧
      (∀ x ∈ entry.2, x.1 ∈ keys ∧ (cellKm x.2).isSome) ∧
      (∀ c ∈ calls, c.1 = stripDecimal (pyStr row.2)) := by
  set origin := stripDecimal (pyStr row.2) with horig
  set dists := ((facilityBatches keys).map
    (fun b => p origin (String.intercalate "|" b))).flatten with hdists
  have hmem := buildResult_mem keys dists
  have hparse : ∀ x ∈ (buildResult keys dists).1,
      (sortKey x.2).isSome ∧ (cellKm x.2).isSome := by
    intro x hx
    obtain ⟨-, hsome⟩ := hmem x hx
    rw [hdists] at hsome
    obtain ⟨l, hl, hxl⟩ := List.mem_flatten.mp hsome
    obtain ⟨b, hb, rfl⟩ := List.mem_map.mp hl
    exact hw origin _ _ hxl
  have hall : ∀ x ∈ (buildResult keys dists).1, (sortKey x.2).isSome :=
    fun x hx => (hparse x hx).1
  refine ⟨(origin,
      (((buildResult keys dists).1.insertionSort (fun a b => keyLe a b = true)).take 3)),
    (buildResult keys dists).2,
    (facilityBatches keys).map (fun b => (origin, String.intercalate "|" b)),
    ?_, rfl, ?_, ?_, ?_⟩
  · simp only [processEmployee, ← horig, process_distances_batch_some, ← hdists,
      except_bind_ok, sortEntries_ok _ hall]
  · simp [List.length_take_le]
  · intro x hx
    have hxr : x ∈ (buildResult keys dists).1 :=
      (List.mem_insertionSort _).mp ((List.take_sublist _ _).mem hx)
    exact ⟨(hmem x hxr).1, (hparse x hxr).2⟩
  · intro c hc
    obtain ⟨b, hb, rfl⟩ := List.mem_map.mp hc
    rfl

theorem employeesLoop_props (p : Provider) (keys : List String)
    (rows : List (String × String)) (hw : wellFormedTexts p) :
    ∃ (data : List Entry) (log : List String),
      employeesLoop (some p) keys rows = .ok (data, log) ∧
      data.length = rows.length ∧
      (∀ (k : ℕ) (entry : Entry), data[k]? = some entry →
        ∃ row, rows[k]? = some row ∧ entry.1 = stripDecimal (pyStr row.2)) ∧
      (∀ entry ∈ data, entry.2.length ≤ 3 ∧
        ∀ x ∈ entry.2, x.1 ∈ keys ∧ (cellKm x.2).isSome) := by
  induction rows with
  | nil =>
    refine ⟨[], [], rfl, rfl, ?_, by simp⟩
    intro k entry hk
    simp at hk
  | cons row rest ih =>
    obtain ⟨entry, diags, calls, hpe, h1, h2, h3, h4⟩ := processEmployee_props p keys row hw
    obtain ⟨data, log, hel, hlen, hidx, hprops⟩ := ih
    refine ⟨entry :: data,
      ((("Processing distances for employee with zip " ++ entry.1 ++ "...") :: diags) ++
        ["Distances processed for employee with zip " ++ entry.1 ++ "."]) ++ log,
      ?_, by simp [hlen], ?_, ?_⟩
    · simp only [employeesLoop, hpe, hel, except_bind_ok]
    · intro k e hk
      rcases k with _ | k
      · refine ⟨row, by simp, ?_⟩
        simp at hk
        rw [← hk, h1]
      · simp only [List.getElem?_cons_succ] at hk ⊢
        exact hidx k e hk
    · intro e he
      rcases List.mem_cons.mp he with he | he
      · rw [he]
        exact ⟨h2, h3⟩
      · exact hprops e he

theorem lookupMapping_isSome (m : List (String × String)) (k : String)
    (h : k ∈ m.map Prod.fst) : (lookupMapping m k).isSome := by
  obtain ⟨x, hx, rfl⟩ := List.mem_map.mp h
  rw [lookupMapping]
  have hf : (m.find? (fun p => p.1 == x.1)).isSome := by
    rw [List.find?_isSome]
    exact ⟨x, hx, by simp⟩
  obtain ⟨y, hy⟩ := Option.isSome_iff_exists.mp hf
  simp [hy]

theorem facLoop_ok (mapping : List (String × String)) (idx : ℕ) :
    ∀ (i : ℕ) (facs : List (String × String)),
    (∀ x ∈ facs, (cellKm x.2).isSome ∧ (lookupMapping mapping x.1).isSome) →
    ∃ ws, facLoop mapping idx i facs = .ok ws := by
  intro i facs
  induction facs generalizing i with
  | nil => intro h; exact ⟨[], rfl⟩
  | cons x rest ih =>
    intro h
    rcases x with ⟨fz, dt⟩
    obtain ⟨hc, hl⟩ := h (fz, dt) (List.mem_cons_self _ _)
    have hc2 : (cellKm dt).isSome = true := hc
    have hl2 : (lookupMapping mapping fz).isSome = true := hl
    obtain ⟨q, hq⟩ := Option.isSome_iff_exists.mp hc2
    obtain ⟨code, hcode⟩ := Option.isSome_iff_exists.mp hl2
    obtain ⟨ws, hws⟩ := ih (i + 1) (fun y hy => h y (List.mem_cons_of_mem _ hy))
    refine ⟨[((idx, i + 3), CellValue.str (pyStr fz)),
      ((idx, i + 6), CellValue.int (ratTrunc (km_to_miles q))),
      ((idx, i + 9), CellValue.str code)] ++ ws, ?_⟩
    simp only [facLoop, pyStr, hq, hcode, hws, except_bind_ok]

theorem rowWrites_ok (mapping : List (String × String)) (names : List String) (idx : ℕ)
    (entry : Entry) (hn : (names.get? (idx - 2)).isSome)
    (hf : ∀ x ∈ entry.2, (cellKm x.2).isSome ∧ (lookupMapping mapping x.1).isSome) :
    ∃ ws, rowWrites mapping names idx entry = .ok ws := by
  obtain ⟨name, hname⟩ := Option.isSome_iff_exists.mp hn
  obtain ⟨ws, hws⟩ := facLoop_ok mapping idx 0 entry.2 hf
  refine ⟨[((idx, 1), CellValue.str name), ((idx, 2), CellValue.str entry.1)] ++ ws, ?_⟩
  simp only [rowWrites, hname, hws, except_bind_ok]

theorem dataRows_ok (mapping : List (String × String)) (names : List String)
    (data : List Entry) :
    ∀ k, k + data.length ≤ names.length →
    (∀ entry ∈ data, ∀ x ∈ entry.2,
      (cellKm x.2).isSome ∧ (lookupMapping mapping x.1).isSome) →
    ∃ ws, dataRows mapping names (k + 2) data = .ok ws := by
  induction data with
  | nil => intro k hk hd; exact ⟨[], rfl⟩
  | cons e rest ih =>
    intro k hk hd
    have hn : (names.get? (k + 2 - 2)).isSome := by
      rw [Nat.add_sub_cancel]
      rw [List.get?_eq_getElem?, List.getElem?_eq_getElem (by simp at hk; omega)]
      simp
    obtain ⟨w, hw⟩ := rowWrites_ok mapping names (k + 2) e hn
      (hd e (List.mem_cons_self _ _))
    have hk' : (k + 1) + rest.length ≤ names.length := by simp at hk; omega
    obtain ⟨ws, hws⟩ := ih (k + 1) hk' (fun y hy => hd y (List.mem_cons_of_mem _ hy))
    have hss : dataRows mapping names (k + 2 + 1) rest = .ok ws := by
      have : k + 2 + 1 = (k + 1) + 2 := by omega
      rw [this]
      exact hws
    refine ⟨w ++ ws, ?_⟩
    simp only [dataRows, hw, hss, except_bind_ok]

theorem generate_ok (data : List Entry) (mapping : List (String × String))
    (names : List String) (hlen : data.length ≤ names.length)
    (hd : ∀ entry ∈ data, ∀ x ∈ entry.2,
      (cellKm x.2).isSome ∧ (lookupMapping mapping x.1).isSome) :
    ∃ rows, generate_output_file data mapping names = .ok ("Results", headerWrites ++ rows) := by
  obtain ⟨ws, hws⟩ := dataRows_ok mapping names data 0 (by omega) hd
  refine ⟨ws, ?_⟩
  rw [generate_output_file]
  have h02 : (0 + 2 : ℕ) = 2 := rfl
  rw [h02] at hws
  rw [hws]
  rfl

theorem run_spec_finishes (env : Env)
    (hn : test_network_connectivity env.netOutcome = true)
    (ha : test_api_connection env.apiOutcome = .ok true)
    (hw : wellFormedTexts env.provider) :
    ∃ data rows, (run_spec env).1 = .finished data ("Results", headerWrites ++ rows) ∧
      data.length = env.inputRows.length ∧
      outputWrites (run_spec env).1 = [("Results", headerWrites ++ rows)] := by
  obtain ⟨data, log, hel, hlen, hidx, hprops⟩ :=
    employeesLoop_props env.provider ((buildMapping env.facilityRows).map Prod.fst)
      env.inputRows hw
  have hd : ∀ entry ∈ data, ∀ x ∈ entry.2,
      (cellKm x.2).isSome ∧ (lookupMapping (buildMapping env.facilityRows) x.1).isSome := by
    intro e he x hx
    obtain ⟨h2, h3⟩ := hprops e he
    obtain ⟨hk, hc⟩ := h3 x hx
    exact ⟨hc, lookupMapping_isSome _ _ hk⟩
  have hnames : data.length ≤ (env.inputRows.map Prod.fst).length := by simp [hlen]
  obtain ⟨rows, hgen⟩ := generate_ok data (buildMapping env.facilityRows)
    (env.inputRows.map Prod.fst) hnames hd
  have hres : (run_spec env).1 = .finished data ("Results", headerWrites ++ rows) := by
    rw [run_spec, runWith]
    rw [if_neg (by rw [hn]; simp)]
    rw [ha]
    simp only [hel, hgen]
  exact ⟨data, rows, hres, hlen, by rw [hres]; rfl⟩

/-- C6 (amended): if either connectivity precheck fails, the run aborts before
processing any employee, produces no output file, and emits a final
explanatory message — but `main` returns normally, so the process exits with
status 0 (not a non-zero-equivalent status as claimed); otherwise (with the
spec-modelled provider returning well-formed distance texts) the run
completes and writes the output file exactly once, after all employees are
processed. -/
theorem C6_exit_behavior (fb : Option Provider) (env : Env) :
    (test_network_connectivity env.netOutcome = false →
      (runWith fb env).1 = .abortedNetwork ∧
      outputWrites (runWith fb env).1 = [] ∧
      exitStatus (runWith fb env).1 = 0 ∧
      (runWith fb env).2.getLast? = some "Network connectivity test failed. Exiting.") ∧
    (test_network_connectivity env.netOutcome = true →
      test_api_connection env.apiOutcome = .ok false →
      (runWith fb env).1 = .abortedApi ∧
      outputWrites (runWith fb env).1 = [] ∧
      exitStatus (runWith fb env).1 = 0 ∧
      (runWith fb env).2.getLast? = some "API connection test failed. Exiting.") ∧
    (test_network_connectivity env.netOutcome = true →
      test_api_connection env.apiOutcome = .ok true →
      wellFormedTexts env.provider →
      ∃ data rows, (run_spec env).1 = .finished data ("Results", headerWrites ++ rows) ∧
        data.length = env.inputRows.length ∧
        outputWrites (run_spec env).1 = [("Results", headerWrites ++ rows)] ∧
        exitStatus (run_spec env).1 = 0) := by
  refine ⟨?_, ?_, ?_⟩
  · intro hn
    have hrw : runWith fb env =
        (.abortedNetwork, ["Version 1.0", "Testing network connectivity..."] ++
          ["Network connectivity test failed. Exiting."]) := by
      rw [runWith, if_pos (by rw [hn])]
    rw [hrw]
    exact ⟨rfl, rfl, rfl, rfl⟩
  · intro hn ha
    have hrw : runWith fb env =
        (.abortedApi, (["Version 1.0", "Testing network connectivity..."] ++
          ["Network connectivity test successful.", "Testing API connection..."]) ++
          ["API connection test failed. Exiting."]) := by
      rw [runWith]
      rw [if_neg (by rw [hn]; simp)]
      rw [ha]
    rw [hrw]
    exact ⟨rfl, rfl, rfl, rfl⟩
  · intro hn ha hw
    obtain ⟨data, rows, hres, hlen, hout⟩ := run_spec_finishes env hn ha hw
    exact ⟨data, rows, hres, hlen, hout, by rw [hres]; rfl⟩

/-- C6, counterexample to the claim as stated: on a failing network precheck
the run aborts with the final message and no output, yet the exit status is
0, not a non-zero-equivalent status. -/
theorem C6_exit_behavior_cex :
    (run_actual envNetDown).1 = .abortedNetwork ∧
    outputWrites (run_actual envNetDown).1 = [] ∧
    (run_actual envNetDown).2.getLast? = some "Network connectivity test failed. Exiting." ∧
    exitStatus (run_actual envNetDown).1 = 0 := ⟨rfl, rfl, rfl, rfl⟩

/-- C6 (amended), witnessed on concrete environments for the abort path and
the completion path. -/
theorem C6_exit_behavior_witness :
    ((runWith none envNetDown).1 = .abortedNetwork ∧
      outputWrites (runWith none envNetDown).1 = [] ∧
      exitStatus (runWith none envNetDown).1 = 0 ∧
      (runWith none envNetDown).2.getLast? =
        some "Network connectivity test failed. Exiting.") ∧
    (∃ data rows, (run_spec envHappy).1 = .finished data ("Results", headerWrites ++ rows) ∧
      data.length = envHappy.inputRows.length ∧
      outputWrites (run_spec envHappy).1 = [("Results", headerWrites ++ rows)] ∧
      exitStatus (run_spec envHappy).1 = 0) :=
  ⟨(C6_exit_behavior none envNetDown).1 rfl,
    (C6_exit_behavior none envHappy).2.2 rfl rfl (by
      intro o d t ht
      simp [envHappy] at ht
      rw [ht]
      exact ⟨by decide, by decide⟩)⟩

theorem except_bind_err {e a b : Type} (err : e) (f : a → Except e b) :
    (Except.error err >>= f : Except e b) = .error err := rfl

theorem sortEntries_err (l : List (String × String))
    (h : ¬ ∀ x ∈ l, (sortKey x.2).isSome) : sortEntries l = .error .valueError := by
  rw [sortEntries, if_neg]
  intro hc
  exact h (List.all_eq_true.mp hc)

theorem processEmployee_cases (p : Provider) (keys : List String) (row : String × String) :
    processEmployee (some p) keys row = .error .valueError ∨
    ∃ entry diags calls, processEmployee (some p) keys row = .ok (entry, diags, calls) ∧
      entry.1 = stripDecimal (pyStr row.2) ∧
      ∀ x ∈ entry.2, x.1 ∈ keys := by
  set origin := stripDecimal (pyStr row.2) with horig
  set dists := ((facilityBatches keys).map
    (fun b => p origin (String.intercalate "|" b))).flatten with hdists
  by_cases hall : ∀ x ∈ (buildResult keys dists).1, (sortKey x.2).isSome
  · right
    refine ⟨(origin,
        (((buildResult keys dists).1.insertionSort (fun a b => keyLe a b = true)).take 3)),
      (buildResult keys dists).2,
      (facilityBatches keys).map (fun b => (origin, String.intercalate "|" b)), ?_, rfl, ?_⟩
    · simp only [processEmployee, ← horig, process_distances_batch_some, ← hdists,
        except_bind_ok, sortEntries_ok _ hall]
    · intro x hx
      have hxr : x ∈ (buildResult keys dists).1 :=
        (List.mem_insertionSort _).mp ((List.take_sublist _ _).mem hx)
      exact (buildResult_mem keys dists x hxr).1
  · left
    simp only [processEmployee, ← horig, process_distances_batch_some, ← hdists,
      except_bind_ok, sortEntries_err _ hall, except_bind_err]

theorem employeesLoop_cases (p : Provider) (keys : List String)
    (rows : List (String × String)) :
    employeesLoop (some p) keys rows = .error .valueError ∨
    ∃ (data : List Entry) (log : List String),
      employeesLoop (some p) keys rows = .ok (data, log) ∧
      data.length = rows.length ∧
      (∀ (k : ℕ) (entry : Entry), data[k]? = some entry →
        ∃ row, rows[k]? = some row ∧ entry.1 = stripDecimal (pyStr row.2)) ∧
      (∀ entry ∈ data, ∀ x ∈ entry.2, x.1 ∈ keys) := by
  induction rows with
  | nil =>
    refine Or.inr ⟨[], [], rfl, rfl, ?_, by simp⟩
    intro k entry hk
    simp at hk
  | cons row rest ih =>
    rcases processEmployee_cases p keys row with hpe | ⟨entry, diags, calls, hpe, hzip, hmem⟩
    · left
      simp only [employeesLoop, hpe, except_bind_err]
    · rcases ih with hih | ⟨data, log, hel, hlen, hidx, hprops⟩
      · left
        simp only [employeesLoop, hpe, except_bind_ok, hih, except_bind_err]
      · right
        refine ⟨entry :: data,
          ((("Processing distances for employee with zip " ++ entry.1 ++ "...") :: diags) ++
            ["Distances processed for employee with zip " ++ entry.1 ++ "."]) ++ log,
          ?_, by simp [hlen], ?_, ?_⟩
        · simp only [employeesLoop, hpe, hel, except_bind_ok]
        · intro k e hk
          rcases k with _ | k
          · refine ⟨row, by simp, ?_⟩
            simp at hk
            rw [← hk]
            exact hzip
          · simp only [List.getElem?_cons_succ] at hk ⊢
            exact hidx k e hk
        · intro e he
          rcases List.mem_cons.mp he with he | he
          · rw [he]; exact hmem
          · exact hprops e he

theorem facLoop_ne_keyError (mapping : List (String × String)) (idx : ℕ) :
    ∀ (i : ℕ) (facs : List (String × String)),
    (∀ x ∈ facs, (lookupMapping mapping x.1).isSome) →
    facLoop mapping idx i facs ≠ .error .keyError := by
  intro i facs
  induction facs generalizing i with
  | nil => intro h hc; simp [facLoop] at hc
  | cons x rest ih =>
    intro h hc
    rcases x with ⟨fz, dt⟩
    have hl2 : (lookupMapping mapping fz).isSome = true := h (fz, dt) (List.mem_cons_self _ _)
    obtain ⟨code, hcode⟩ := Option.isSome_iff_exists.mp hl2
    rcases hq : cellKm dt with _ | q
    · simp only [facLoop, hq, except_bind_err] at hc
      cases hc
    · rcases hfl : facLoop mapping idx (i + 1) rest with e | ws
      · simp only [facLoop, pyStr, hq, hcode, hfl, except_bind_ok, except_bind_err] at hc
        cases hc
        exact ih (i + 1) (fun y hy => h y (List.mem_cons_of_mem _ hy)) hfl
      · simp only [facLoop, pyStr, hq, hcode, hfl, except_bind_ok] at hc
        cases hc

theorem rowWrites_ne_keyError (mapping : List (String × String)) (names : List String)
    (idx : ℕ) (entry : Entry)
    (hf : ∀ x ∈ entry.2, (lookupMapping mapping x.1).isSome) :
    rowWrites mapping names idx entry ≠ .error .keyError := by
  intro hc
  rcases hn : names.get? (idx - 2) with _ | name
  · simp only [rowWrites, hn, except_bind_err] at hc
    cases hc
  · rcases hfl : facLoop mapping idx 0 entry.2 with e | ws
    · simp only [rowWrites, hn, hfl, except_bind_ok, except_bind_err] at hc
      cases hc
      exact facLoop_ne_keyError mapping idx 0 entry.2 hf hfl
    · simp only [rowWrites, hn, hfl, except_bind_ok] at hc
      cases hc

theorem dataRows_ne_keyError (mapping : List (String × String)) (names : List String) :
    ∀ (data : List Entry) (k : ℕ),
    (∀ entry ∈ data, ∀ x ∈ entry.2, (lookupMapping mapping x.1).isSome) →
    dataRows mapping names k data ≠ .error .keyError := by
  intro data
  induction data with
  | nil => intro k h hc; simp [dataRows] at hc
  | cons e rest ih =>
    intro k h hc
    rcases hrw : rowWrites mapping names k e with er | w
    · simp only [dataRows, hrw, except_bind_err] at hc
      cases hc
      exact rowWrites_ne_keyError mapping names k e (h e (List.mem_cons_self _ _)) hrw
    · rcases hdr : dataRows mapping names (k + 1) rest with er | ws
      · simp only [dataRows, hrw, hdr, except_bind_ok, except_bind_err] at hc
        cases hc
        exact ih (k + 1) (fun y hy => h y (List.mem_cons_of_mem _ hy)) hdr
      · simp only [dataRows, hrw, hdr, except_bind_ok] at hc
        cases hc

/-- C9: every facility postal code appearing in an employee's top-3 list is a
key of the facility mapping (the destinations are the mapping's own key set),
so the report assembler's airport-code lookup always succeeds and the run
never raises a missing-key error past the precheck stage. -/
theorem C9_airport_lookup (env : Env)
    (ha : test_api_connection env.apiOutcome ≠ .error .keyError) :
    (∀ (mapping : List (String × String)) (ds : List (Option String))
      (out : List (String × String)),
      select_top3 ((buildResult (mapping.map Prod.fst) ds).1) = .ok out →
      ∀ x ∈ out, (lookupMapping mapping x.1).isSome) ∧
    (run_spec env).1 ≠ .crashed .keyError := by
  constructor
  · intro mapping ds out hout x hx
    have hxr : x ∈ (buildResult (mapping.map Prod.fst) ds).1 :=
      select_top3_mem _ _ hout x hx
    exact lookupMapping_isSome mapping x.1 (buildResult_mem _ ds x hxr).1
  · by_cases hn : test_network_connectivity env.netOutcome = false
    · rw [run_spec, runWith, if_pos hn]
      intro hc
      cases hc
    · rw [run_spec, runWith, if_neg hn]
      rcases hapi : test_api_connection env.apiOutcome with e | b
      · simp only [hapi]
        intro hc
        cases hc
        exact ha hapi
      · rcases b with _ | _
        · simp only [hapi]
          intro hc
          cases hc
        · simp only [hapi]
          rcases employeesLoop_cases env.provider
              ((buildMapping env.facilityRows).map Prod.fst) env.inputRows with
            hel | ⟨data, log, hel, hlen, hidx, hprops⟩
          · simp only [hel]
            intro hc
            cases hc
          · simp only [hel]
            rcases hgen : generate_output_file data (buildMapping env.facilityRows)
                (env.inputRows.map Prod.fst) with er | sheet
            · simp only []
              intro hc
              cases hc
              rw [generate_output_file] at hgen
              rcases hdr : dataRows (buildMapping env.facilityRows)
                  (env.inputRows.map Prod.fst) 2 data with er2 | ws
              · rw [hdr] at hgen
                cases hgen
                refine dataRows_ne_keyError _ _ data 2 ?_ hdr
                intro entry he x hx
                exact lookupMapping_isSome _ _ (hprops entry he x hx)
              · rw [hdr] at hgen
                cases hgen
            · simp only []
              intro hc
              cases hc

theorem cellAt_aux (rc : ℕ × ℕ) (s : Sheet) :
    ∀ acc, s.foldl (fun acc w => if w.1 = rc then some w.2 else acc) acc =
      (cellAt s rc).elim acc some := by
  induction s with
  | nil => intro acc; rfl
  | cons w s ih =>
    intro acc
    have h1 : cellAt (w :: s) rc =
        (cellAt s rc).elim (if w.1 = rc then some w.2 else none) some := by
      rw [cellAt, List.foldl_cons, ih]
    rw [List.foldl_cons, ih, h1]
    rcases cellAt s rc with _ | v
    · by_cases hw : w.1 = rc
      · simp [hw, Option.elim]
      · simp [hw, Option.elim]
    · rfl

theorem cellAt_cons (w : (ℕ × ℕ) × CellValue) (s : Sheet) (rc : ℕ × ℕ) :
    cellAt (w :: s) rc = (cellAt s rc).elim (if w.1 = rc then some w.2 else none) some := by
  rw [cellAt, List.foldl_cons, cellAt_aux]

theorem cellAt_append (s₁ s₂ : Sheet) (rc : ℕ × ℕ) :
    cellAt (s₁ ++ s₂) rc = (cellAt s₂ rc).elim (cellAt s₁ rc) some := by
  rw [cellAt, List.foldl_append, cellAt_aux]
  rfl

theorem cellAt_none_of_ne (ws : Sheet) (rc : ℕ × ℕ) (h : ∀ w ∈ ws, w.1 ≠ rc) :
    cellAt ws rc = none := by
  induction ws with
  | nil => rfl
  | cons w s ih =>
    rw [cellAt_cons, ih (fun x hx => h x (List.mem_cons_of_mem _ hx))]
    simp [Option.elim, if_neg (h w (List.mem_cons_self _ _))]

theorem cellAt_three (p1 p2 p3 : ℕ × ℕ) (v1 v2 v3 : CellValue) (rc : ℕ × ℕ) :
    cellAt [(p1, v1), (p2, v2), (p3, v3)] rc =
      if p3 = rc then some v3 else if p2 = rc then some v2
      else if p1 = rc then some v1 else none := rfl

theorem cellAt_two (p1 p2 : ℕ × ℕ) (v1 v2 : CellValue) (rc : ℕ × ℕ) :
    cellAt [(p1, v1), (p2, v2)] rc =
      if p2 = rc then some v2 else if p1 = rc then some v1 else none := rfl

theorem pair_ne_of_snd (r : ℕ) {a b : ℕ} (h : a ≠ b) : ((r, a) : ℕ × ℕ) ≠ (r, b) := by
  intro hc
  exact h (congrArg Prod.snd hc)

theorem facLoop_bounds (mapping : List (String × String)) (idx : ℕ) :
    ∀ (i : ℕ) (facs : List (String × String)) (ws : Sheet),
    facLoop mapping idx i facs = .ok ws →
    ∀ w ∈ ws, w.1.1 = idx ∧ i + 3 ≤ w.1.2 := by
  intro i facs
  induction facs generalizing i with
  | nil =>
    intro ws h w hw
    simp only [facLoop] at h
    cases h
    simp at hw
  | cons x rest ih =>
    intro ws h w hw
    rcases x with ⟨fz, dt⟩
    rcases hq : cellKm dt with _ | q
    · simp only [facLoop, hq, except_bind_err] at h
      cases h
    · rcases hcode : lookupMapping mapping fz with _ | code
      · simp only [facLoop, pyStr, hq, hcode, except_bind_ok, except_bind_err] at h
        cases h
      · rcases hrec : facLoop mapping idx (i + 1) rest with e | tail
        · simp only [facLoop, pyStr, hq, hcode, hrec, except_bind_ok, except_bind_err] at h
          cases h
        · simp only [facLoop, pyStr, hq, hcode, hrec, except_bind_ok] at h
          cases h
          rcases List.mem_append.mp hw with hw | hw
          · simp at hw
            rcases hw with rfl | rfl | rfl
            · refine ⟨rfl, ?_⟩
              show i + 3 ≤ i + 3
              omega
            · refine ⟨rfl, ?_⟩
              show i + 3 ≤ i + 6
              omega
            · refine ⟨rfl, ?_⟩
              show i + 3 ≤ i + 9
              omega
          · obtain ⟨h1, h2⟩ := ih (i + 1) tail hrec w hw
            exact ⟨h1, by omega⟩

theorem facLoop_cellAt (mapping : List (String × String)) (idx : ℕ) :
    ∀ (i : ℕ) (facs : List (String × String)) (ws : Sheet),
    facs.length ≤ 3 →
    facLoop mapping idx i facs = .ok ws →
    (∀ (m : ℕ) (fz dt : String), facs[m]? = some (fz, dt) →
      cellAt ws (idx, i + m + 3) = some (.str fz) ∧
      (∃ q, cellKm dt = some q ∧
        cellAt ws (idx, i + m + 6) = some (.int (ratTrunc (km_to_miles q)))) ∧
      (∃ code, lookupMapping mapping fz = some code ∧
        cellAt ws (idx, i + m + 9) = some (.str code))) ∧
    (∀ (m : ℕ), facs.length ≤ m → m < 3 →
      cellAt ws (idx, i + m + 3) = none ∧ cellAt ws (idx, i + m + 6) = none ∧
      cellAt ws (idx, i + m + 9) = none) := by
  intro i facs
  induction facs generalizing i with
  | nil =>
    intro ws hlen h
    simp only [facLoop] at h
    cases h
    constructor
    · intro m fz dt hm
      simp at hm
    · intro m hm h3
      exact ⟨rfl, rfl, rfl⟩
  | cons x rest ih =>
    intro ws hlen h
    rcases x with ⟨fz, dt⟩
    rcases hq : cellKm dt with _ | q
    · simp only [facLoop, hq, except_bind_err] at h
      cases h
    · rcases hcode : lookupMapping mapping fz with _ | code
      · simp only [facLoop, pyStr, hq, hcode, except_bind_ok, except_bind_err] at h
        cases h
      · rcases hrec : facLoop mapping idx (i + 1) rest with e | tail
        · simp only [facLoop, pyStr, hq, hcode, hrec, except_bind_ok, except_bind_err] at h
          cases h
        · simp only [facLoop, pyStr, hq, hcode, hrec, except_bind_ok] at h
          cases h
          have hrest2 : rest.length ≤ 2 := by simp at hlen; omega
          obtain ⟨ihmem, ihblank⟩ := ih (i + 1) tail (by omega) hrec
          have hbounds := facLoop_bounds mapping idx (i + 1) rest tail hrec
          have htail_lo : ∀ c, c < i + 4 → cellAt tail (idx, c) = none := by
            intro c hc
            apply cellAt_none_of_ne
            intro w hw hweq
            have hb := (hbounds w hw).2
            rw [hweq] at hb
            simp at hb
            omega
          have hblank2 := ihblank 2 hrest2 (by omega)
          constructor
          · intro m fz2 dt2 hm
            rcases m with _ | m
            · simp only [List.getElem?_cons_zero, Option.some.injEq, Prod.mk.injEq] at hm
              obtain ⟨hfz, hdt⟩ := hm
              subst hfz
              subst hdt
              have e3 : i + 0 + 3 = i + 3 := by omega
              have e6 : i + 0 + 6 = i + 6 := by omega
              have e9 : i + 0 + 9 = i + 9 := by omega
              rw [e3, e6, e9]
              have ht6 : cellAt tail (idx, i + 6) = none := by
                have := hblank2.1
                have e : i + 1 + 2 + 3 = i + 6 := by omega
                rw [e] at this
                exact this
              have ht9 : cellAt tail (idx, i + 9) = none := by
                have := hblank2.2.1
                have e : i + 1 + 2 + 6 = i + 9 := by omega
                rw [e] at this
                exact this
              refine ⟨?_, ⟨q, hq, ?_⟩, ⟨code, hcode, ?_⟩⟩
              · rw [cellAt_append, htail_lo (i + 3) (by omega)]
                simp only [Option.elim]
                rw [cellAt_three, if_neg (pair_ne_of_snd idx (by omega)),
                  if_neg (pair_ne_of_snd idx (by omega)), if_pos rfl]
              · rw [cellAt_append, ht6]
                simp only [Option.elim]
                rw [cellAt_three, if_neg (pair_ne_of_snd idx (by omega)), if_pos rfl]
              · rw [cellAt_append, ht9]
                simp only [Option.elim]
                rw [cellAt_three, if_pos rfl]
            · simp only [List.getElem?_cons_succ] at hm
              obtain ⟨c3, ⟨q2, hq2, c6⟩, ⟨code2, hcode2, c9⟩⟩ := ihmem m fz2 dt2 hm
              have e3 : i + (m + 1) + 3 = i + 1 + m + 3 := by omega
              have e6 : i + (m + 1) + 6 = i + 1 + m + 6 := by omega
              have e9 : i + (m + 1) + 9 = i + 1 + m + 9 := by omega
              rw [e3, e6, e9]
              refine ⟨?_, ⟨q2, hq2, ?_⟩, ⟨code2, hcode2, ?_⟩⟩
              · rw [cellAt_append, c3]
                simp only [Option.elim]
              · rw [cellAt_append, c6]
                simp only [Option.elim]
              · rw [cellAt_append, c9]
                simp only [Option.elim]
          · intro m hm h3
            have hm1 : 1 ≤ m := by simp at hm; omega
            obtain ⟨b3, b6, b9⟩ := ihblank (m - 1) (by simp at hm; omega) (by omega)
            have e3 : i + 1 + (m - 1) + 3 = i + m + 3 := by omega
            have e6 : i + 1 + (m - 1) + 6 = i + m + 6 := by omega
            have e9 : i + 1 + (m - 1) + 9 = i + m + 9 := by omega
            rw [e3] at b3
            rw [e6] at b6
            rw [e9] at b9
            refine ⟨?_, ?_, ?_⟩
            · rw [cellAt_append, b3]
              simp only [Option.elim]
              rw [cellAt_three, if_neg (pair_ne_of_snd idx (by omega)),
                if_neg (pair_ne_of_snd idx (by omega)),
                if_neg (pair_ne_of_snd idx (by omega))]
            · rw [cellAt_append, b6]
              simp only [Option.elim]
              rw [cellAt_three, if_neg (pair_ne_of_snd idx (by omega)),
                if_neg (pair_ne_of_snd idx (by omega)),
                if_neg (pair_ne_of_snd idx (by omega))]
            · rw [cellAt_append, b9]
              simp only [Option.elim]
              rw [cellAt_three, if_neg (pair_ne_of_snd idx (by omega)),
                if_neg (pair_ne_of_snd idx (by omega)),
                if_neg (pair_ne_of_snd idx (by omega))]

theorem rowWrites_rows (mapping : List (String × String)) (names : List String)
    (idx : ℕ) (entry : Entry) (ws : Sheet)
    (hrw : rowWrites mapping names idx entry = .ok ws) :
    ∀ w ∈ ws, w.1.1 = idx := by
  intro w hw
  rcases hn : names.get? (idx - 2) with _ | name
  · simp only [rowWrites, hn, except_bind_err] at hrw
    cases hrw
  · rcases hfl : facLoop mapping idx 0 entry.2 with e | fws
    · simp only [rowWrites, hn, hfl, except_bind_ok, except_bind_err] at hrw
      cases hrw
    · simp only [rowWrites, hn, hfl, except_bind_ok] at hrw
      cases hrw
      rcases List.mem_append.mp hw with hw | hw
      · simp at hw
        rcases hw with rfl | rfl <;> rfl
      · exact (facLoop_bounds mapping idx 0 entry.2 fws hfl w hw).1

theorem rowWrites_cellAt (mapping : List (String × String)) (names : List String)
    (idx : ℕ) (entry : Entry) (ws : Sheet) (hlen : entry.2.length ≤ 3)
    (hrw : rowWrites mapping names idx entry = .ok ws) :
    (∃ name, names.get? (idx - 2) = some name ∧ cellAt ws (idx, 1) = some (.str name)) ∧
    cellAt ws (idx, 2) = some (.str entry.1) ∧
    (∀ (m : ℕ) (fz dt : String), entry.2[m]? = some (fz, dt) →
      cellAt ws (idx, m + 3) = some (.str fz) ∧
      (∃ q, cellKm dt = some q ∧
        cellAt ws (idx, m + 6) = some (.int (ratTrunc (km_to_miles q)))) ∧
      (∃ code, lookupMapping mapping fz = some code ∧
        cellAt ws (idx, m + 9) = some (.str code))) ∧
    (∀ (m : ℕ), entry.2.length ≤ m → m < 3 →
      cellAt ws (idx, m + 3) = none ∧ cellAt ws (idx, m + 6) = none ∧
      cellAt ws (idx, m + 9) = none) := by
  rcases hn : names.get? (idx - 2) with _ | name
  · simp only [rowWrites, hn, except_bind_err] at hrw
    cases hrw
  · rcases hfl : facLoop mapping idx 0 entry.2 with e | fws
    · simp only [rowWrites, hn, hfl, except_bind_ok, except_bind_err] at hrw
      cases hrw
    · simp only [rowWrites, hn, hfl, except_bind_ok] at hrw
      cases hrw
      obtain ⟨fmem, fblank⟩ := facLoop_cellAt mapping idx 0 entry.2 fws hlen hfl
      have hfb := facLoop_bounds mapping idx 0 entry.2 fws hfl
      have hf_lo : ∀ c, c < 3 → cellAt fws (idx, c) = none := by
        intro c hc
        apply cellAt_none_of_ne
        intro w hw hweq
        have hb := (hfb w hw).2
        rw [hweq] at hb
        simp at hb
        omega
      refine ⟨⟨name, rfl, ?_⟩, ?_, ?_, ?_⟩
      · rw [cellAt_append, hf_lo 1 (by omega)]
        simp only [Option.elim]
        rw [cellAt_two, if_neg (pair_ne_of_snd idx (by omega)), if_pos rfl]
      · rw [cellAt_append, hf_lo 2 (by omega)]
        simp only [Option.elim]
        rw [cellAt_two, if_pos rfl]
      · intro m fz dt hm
        obtain ⟨c3, ⟨q, hq, c6⟩, ⟨code, hcode, c9⟩⟩ := fmem m fz dt hm
        have e3 : (0 : ℕ) + m + 3 = m + 3 := by omega
        have e6 : (0 : ℕ) + m + 6 = m + 6 := by omega
        have e9 : (0 : ℕ) + m + 9 = m + 9 := by omega
        rw [e3] at c3
        rw [e6] at c6
        rw [e9] at c9
        refine ⟨?_, ⟨q, hq, ?_⟩, ⟨code, hcode, ?_⟩⟩
        · rw [cellAt_append, c3]
          simp only [Option.elim]
        · rw [cellAt_append, c6]
          simp only [Option.elim]
        · rw [cellAt_append, c9]
          simp only [Option.elim]
      · intro m hm h3
        obtain ⟨b3, b6, b9⟩ := fblank m hm h3
        have e3 : (0 : ℕ) + m + 3 = m + 3 := by omega
        have e6 : (0 : ℕ) + m + 6 = m + 6 := by omega
        have e9 : (0 : ℕ) + m + 9 = m + 9 := by omega
        rw [e3] at b3
        rw [e6] at b6
        rw [e9] at b9
        refine ⟨?_, ?_, ?_⟩
        · rw [cellAt_append, b3]
          simp only [Option.elim]
          rw [cellAt_two, if_neg (pair_ne_of_snd idx (by omega)),
            if_neg (pair_ne_of_snd idx (by omega))]
        · rw [cellAt_append, b6]
          simp only [Option.elim]
          rw [cellAt_two, if_neg (pair_ne_of_snd idx (by omega)),
            if_neg (pair_ne_of_snd idx (by omega))]
        · rw [cellAt_append, b9]
          simp only [Option.elim]
          rw [cellAt_two, if_neg (pair_ne_of_snd idx (by omega)),
            if_neg (pair_ne_of_snd idx (by omega))]

theorem dataRows_bounds (mapping : List (String × String)) (names : List String) :
    ∀ (data : List Entry) (k : ℕ) (ws : Sheet),
    dataRows mapping names k data = .ok ws →
    ∀ w ∈ ws, k ≤ w.1.1 ∧ w.1.1 < k + data.length := by
  intro data
  induction data with
  | nil =>
    intro k ws h w hw
    simp only [dataRows] at h
    cases h
    simp at hw
  | cons e rest ih =>
    intro k ws h w hw
    rcases hrw : rowWrites mapping names k e with er | rw0
    · simp only [dataRows, hrw, except_bind_err] at h
      cases h
    · rcases hdr : dataRows mapping names (k + 1) rest with er | ws'
      · simp only [dataRows, hrw, hdr, except_bind_ok, except_bind_err] at h
        cases h
      · simp only [dataRows, hrw, hdr, except_bind_ok] at h
        cases h
        rcases List.mem_append.mp hw with hw | hw
        · have hsub := rowWrites_rows mapping names k e rw0 hrw w hw
          have hlen : (e :: rest).length = rest.length + 1 := by simp
          rw [hsub, hlen]
          omega
        · obtain ⟨h1, h2⟩ := ih (k + 1) ws' hdr w hw
          constructor
          · omega
          · simp
            omega

theorem dataRows_cellAt (mapping : List (String × String)) (names : List String) :
    ∀ (data : List Entry) (k : ℕ) (ws : Sheet),
    dataRows mapping names k data = .ok ws →
    ∀ (m : ℕ) (entry : Entry), data[m]? = some entry →
      ∃ rw, rowWrites mapping names (k + m) entry = .ok rw ∧
        ∀ c, cellAt ws (k + m, c) = cellAt rw (k + m, c) := by
  intro data
  induction data with
  | nil =>
    intro k ws h m entry hm
    simp at hm
  | cons e rest ih =>
    intro k ws h m entry hm
    rcases hrw : rowWrites mapping names k e with er | rw0
    · simp only [dataRows, hrw, except_bind_err] at h
      cases h
    · rcases hdr : dataRows mapping names (k + 1) rest with er | ws'
      · simp only [dataRows, hrw, hdr, except_bind_ok, except_bind_err] at h
        cases h
      · simp only [dataRows, hrw, hdr, except_bind_ok] at h
        cases h
        have hbnd := dataRows_bounds mapping names rest (k + 1) ws' hdr
        rcases m with _ | m
        · simp only [List.getElem?_cons_zero, Option.some.injEq] at hm
          subst hm
          have e0 : k + 0 = k := by omega
          rw [e0]
          refine ⟨rw0, hrw, ?_⟩
          intro c
          have hws' : cellAt ws' (k, c) = none := by
            apply cellAt_none_of_ne
            intro w hw hweq
            have hb := (hbnd w hw).1
            rw [hweq] at hb
            simp at hb
          rw [cellAt_append, hws']
          simp only [Option.elim]
        · simp only [List.getElem?_cons_succ] at hm
          obtain ⟨rw1, hrw1, heq⟩ := ih (k + 1) ws' hdr m entry hm
          have ekm : k + (m + 1) = k + 1 + m := by omega
          rw [ekm]
          refine ⟨rw1, hrw1, ?_⟩
          intro c
          rw [cellAt_append]
          rcases hc : cellAt ws' (k + 1 + m, c) with _ | v
          · simp only [Option.elim]
            have hrow0 : cellAt rw0 (k + 1 + m, c) = none := by
              apply cellAt_none_of_ne
              intro w hw hweq
              have hb := rowWrites_rows mapping names k e rw0 hrw w hw
              rw [hweq] at hb
              simp at hb
              omega
            rw [hrow0]
            have := heq c
            rw [hc] at this
            exact this
          · simp only [Option.elim]
            have := heq c
            rw [hc] at this
            exact this

theorem headerWrites_rows : ∀ w ∈ headerWrites, w.1.1 = 1 := by decide

theorem cellAt_some_exists (ws : Sheet) (rc : ℕ × ℕ) (v : CellValue)
    (h : cellAt ws rc = some v) : ∃ w ∈ ws, w.1 = rc := by
  by_contra hc
  push_neg at hc
  rw [cellAt_none_of_ne ws rc hc] at h
  cases h

/-- C8: the report is a single sheet named "Results" with exactly the eleven
specified header cells; each employee yields exactly one data row, in input
order (row k+2 for the k-th employee), with the name in column 1, the
normalized postal code in column 2, the up-to-3 facility zips in columns 3–5
(blank when fewer than 3 are available), their whole-mile distances in
columns 6–8 and their airport codes in columns 9–11; no cell outside the
header row and the employee rows is ever written. -/
theorem C8_report_layout (data : List Entry) (mapping : List (String × String))
    (names : List String) (hnames : names.length = data.length)
    (hlen3 : ∀ entry ∈ data, entry.2.length ≤ 3)
    (hd : ∀ entry ∈ data, ∀ x ∈ entry.2,
      (cellKm x.2).isSome ∧ (lookupMapping mapping x.1).isSome) :
    ∃ rows, generate_output_file data mapping names = .ok ("Results", headerWrites ++ rows) ∧
      cellAt (headerWrites ++ rows) (1, 1) = some (.str "Employee Name") ∧
      cellAt (headerWrites ++ rows) (1, 2) = some (.str "Employee Zip") ∧
      cellAt (headerWrites ++ rows) (1, 3) = some (.str "Closest Facility 1") ∧
      cellAt (headerWrites ++ rows) (1, 4) = some (.str "Closest Facility 2") ∧
      cellAt (headerWrites ++ rows) (1, 5) = some (.str "Closest Facility 3") ∧
      cellAt (headerWrites ++ rows) (1, 6) = some (.str "Distance 1 (miles)") ∧
      cellAt (headerWrites ++ rows) (1, 7) = some (.str "Distance 2 (miles)") ∧
      cellAt (headerWrites ++ rows) (1, 8) = some (.str "Distance 3 (miles)") ∧
      cellAt (headerWrites ++ rows) (1, 9) = some (.str "Facility 1 Airport Code") ∧
      cellAt (headerWrites ++ rows) (1, 10) = some (.str "Facility 2 Airport Code") ∧
      cellAt (headerWrites ++ rows) (1, 11) = some (.str "Facility 3 Airport Code") ∧
      (∀ (k : ℕ) (entry : Entry), data[k]? = some entry →
        (∃ name, names[k]? = some name ∧
          cellAt (headerWrites ++ rows) (k + 2, 1) = some (.str name)) ∧
        cellAt (headerWrites ++ rows) (k + 2, 2) = some (.str entry.1) ∧
        (∀ (m : ℕ) (fz dt : String), entry.2[m]? = some (fz, dt) →
          cellAt (headerWrites ++ rows) (k + 2, m + 3) = some (.str fz) ∧
          (∃ q, cellKm dt = some q ∧
            cellAt (headerWrites ++ rows) (k + 2, m + 6) =
              some (.int (ratTrunc (km_to_miles q)))) ∧
          (∃ code, lookupMapping mapping fz = some code ∧
            cellAt (headerWrites ++ rows) (k + 2, m + 9) = some (.str code))) ∧
        (∀ (m : ℕ), entry.2.length ≤ m → m < 3 →
          cellAt (headerWrites ++ rows) (k + 2, m + 3) = none ∧
          cellAt (headerWrites ++ rows) (k + 2, m + 6) = none ∧
          cellAt (headerWrites ++ rows) (k + 2, m + 9) = none)) ∧
      (∀ (rr c : ℕ) (v : CellValue), cellAt (headerWrites ++ rows) (rr, c) = some v →
        rr = 1 ∨ (2 ≤ rr ∧ rr < 2 + data.length)) := by
  obtain ⟨rows, hdr0⟩ := dataRows_ok mapping names data 0 (by omega) hd
  have hdr : dataRows mapping names 2 data = .ok rows := hdr0
  have hgen : generate_output_file data mapping names = .ok ("Results", headerWrites ++ rows) := by
    rw [generate_output_file, hdr]
    rfl
  have hbnd := dataRows_bounds mapping names data 2 rows hdr
  have hrows_ne : ∀ c, cellAt rows (1, c) = none := by
    intro c
    apply cellAt_none_of_ne
    intro w hw hweq
    have hb := (hbnd w hw).1
    rw [hweq] at hb
    simp at hb
  have hheader_ne : ∀ r c, r ≠ 1 → cellAt headerWrites (r, c) = none := by
    intro r c hr
    apply cellAt_none_of_ne
    intro w hw hweq
    have hb := headerWrites_rows w hw
    rw [hweq] at hb
    simp at hb
    exact hr hb
  have hsheet_lo : ∀ c, cellAt (headerWrites ++ rows) (1, c) = cellAt headerWrites (1, c) := by
    intro c
    rw [cellAt_append, hrows_ne c]
    simp only [Option.elim]
  have hsheet_hi : ∀ r c, r ≠ 1 →
      cellAt (headerWrites ++ rows) (r, c) = cellAt rows (r, c) := by
    intro r c hr
    rw [cellAt_append]
    rcases hc : cellAt rows (r, c) with _ | v
    · simp only [Option.elim]
      exact hheader_ne r c hr
    · simp only [Option.elim]
  refine ⟨rows, hgen, ?_, ?_, ?_, ?_, ?_, ?_, ?_, ?_, ?_, ?_, ?_, ?_, ?_⟩
  · rw [hsheet_lo]; decide
  · rw [hsheet_lo]; decide
  · rw [hsheet_lo]; decide
  · rw [hsheet_lo]; decide
  · rw [hsheet_lo]; decide
  · rw [hsheet_lo]; decide
  · rw [hsheet_lo]; decide
  · rw [hsheet_lo]; decide
  · rw [hsheet_lo]; decide
  · rw [hsheet_lo]; decide
  · rw [hsheet_lo]; decide
  · intro k entry hk
    have hk2 : 2 + k = k + 2 := by omega
    obtain ⟨rw1, hrw1, heq⟩ := dataRows_cellAt mapping names data 2 rows hdr k entry hk
    rw [hk2] at hrw1 heq
    have hentry_mem : entry ∈ data := by
      have := List.getElem?_mem hk
      exact this
    obtain ⟨⟨name, hname, cel1⟩, cel2, celm, celb⟩ :=
      rowWrites_cellAt mapping names (k + 2) entry rw1 (hlen3 entry hentry_mem) hrw1
    have hkne : (k + 2) ≠ 1 := by omega
    refine ⟨⟨name, ?_, ?_⟩, ?_, ?_, ?_⟩
    · rw [← List.get?_eq_getElem?]
      have e : k + 2 - 2 = k := by omega
      rw [e] at hname
      exact hname
    · rw [hsheet_hi _ _ hkne, heq 1]
      exact cel1
    · rw [hsheet_hi _ _ hkne, heq 2]
      exact cel2
    · intro m fz dt hm
      obtain ⟨c3, ⟨q, hq, c6⟩, ⟨code, hcode, c9⟩⟩ := celm m fz dt hm
      refine ⟨?_, ⟨q, hq, ?_⟩, ⟨code, hcode, ?_⟩⟩
      · rw [hsheet_hi _ _ hkne, heq (m + 3)]
        exact c3
      · rw [hsheet_hi _ _ hkne, heq (m + 6)]
        exact c6
      · rw [hsheet_hi _ _ hkne, heq (m + 9)]
        exact c9
    · intro m hm h3
      obtain ⟨b3, b6, b9⟩ := celb m hm h3
      refine ⟨?_, ?_, ?_⟩
      · rw [hsheet_hi _ _ hkne, heq (m + 3)]
        exact b3
      · rw [hsheet_hi _ _ hkne, heq (m + 6)]
        exact b6
      · rw [hsheet_hi _ _ hkne, heq (m + 9)]
        exact b9
  · intro rr c v hv
    by_cases hr1 : rr = 1
    · exact Or.inl hr1
    · right
      rw [hsheet_hi _ _ hr1] at hv
      obtain ⟨w, hw, hweq⟩ := cellAt_some_exists rows (rr, c) v hv
      obtain ⟨h1, h2⟩ := hbnd w hw
      rw [hweq] at h1 h2
      simp at h1 h2
      omega

theorem splitPred_append_sep (p : Char → Bool) (l1 : List Char) (c : Char) (l2 : List Char)
    (h1 : ∀ x ∈ l1, p x = false) (hc : p c = true) :
    splitPred p (l1 ++ c :: l2) = l1 :: splitPred p l2 := by
  induction l1 with
  | nil =>
    simp only [List.nil_append, splitPred, hc]
  | cons a l1 ih =>
    have ha : p a = false := h1 a (List.mem_cons_self _ _)
    have ih2 := ih (fun x hx => h1 x (List.mem_cons_of_mem _ hx))
    show splitPred p (a :: (l1 ++ c :: l2)) = (a :: l1) :: splitPred p l2
    rw [splitPred, ih2, ha]

theorem splitPred_no_sep (p : Char → Bool) (l : List Char) (h : ∀ x ∈ l, p x = false) :
    splitPred p l = [l] := by
  induction l with
  | nil => rfl
  | cons a l ih =>
    have ha : p a = false := h a (List.mem_cons_self _ _)
    have ih2 := ih (fun x hx => h x (List.mem_cons_of_mem _ hx))
    rw [splitPred, ih2, ha]

theorem stripDecimal_append (s t : String) (h : ∀ c ∈ s.data, c ≠ '.') :
    stripDecimal (s ++ "." ++ t) = s := by
  rw [stripDecimal, pySplitOn]
  have hdata : (s ++ "." ++ t).data = s.data ++ '.' :: t.data := by
    simp [String.data_append]
  rw [hdata, splitPred_append_sep (· == '.') s.data '.' t.data
    (fun x hx => by simpa using h x hx) (by simp)]
  simp

theorem stripDecimal_no_dot (s : String) (h : ∀ c ∈ s.data, c ≠ '.') :
    stripDecimal s = s := by
  rw [stripDecimal, pySplitOn, splitPred_no_sep (· == '.') s.data
    (fun x hx => by simpa using h x hx)]
  simp

theorem insertMapping_keys (m : List (String × String)) (k v : String) :
    ∀ x ∈ (insertMapping m k v).map Prod.fst, x ∈ m.map Prod.fst ∨ x = k := by
  intro x hx
  unfold insertMapping at hx
  split at hx
  · rw [List.map_map] at hx
    obtain ⟨q, hq, heq⟩ := List.mem_map.mp hx
    by_cases hqk : (q.1 == k) = true
    · simp only [Function.comp, hqk, if_pos] at heq
      right
      rw [← heq]
    · simp only [Function.comp, hqk] at heq
      simp only [Bool.false_eq_true, if_false] at heq
      left
      exact List.mem_map.mpr ⟨q, hq, heq⟩
  · rw [List.map_append] at hx
    rcases List.mem_append.mp hx with hx | hx
    · left
      exact hx
    · right
      simpa using hx

theorem buildMapping_keys_aux (rows : List (String × String)) :
    ∀ (m : List (String × String)),
    ∀ x ∈ ((rows.foldl (fun m r => insertMapping m (pyStr r.1) r.2) m).map Prod.fst),
      x ∈ m.map Prod.fst ∨ x ∈ rows.map Prod.fst := by
  induction rows with
  | nil => intro m x hx; exact Or.inl hx
  | cons r rest ih =>
    intro m x hx
    rw [List.foldl_cons] at hx
    rcases ih (insertMapping m (pyStr r.1) r.2) x hx with hx2 | hx2
    · rcases insertMapping_keys m (pyStr r.1) r.2 x hx2 with hx3 | hx3
      · exact Or.inl hx3
      · right
        rw [hx3]
        simp [pyStr]
    · right
      exact List.mem_cons_of_mem _ hx2

theorem buildMapping_keys (rows : List (String × String)) :
    ∀ x ∈ (buildMapping rows).map Prod.fst, x ∈ rows.map Prod.fst := by
  intro x hx
  rcases buildMapping_keys_aux rows [] x hx with hx2 | hx2
  · simp at hx2
  · exact hx2

theorem run_spec_finished_inv (env : Env) (data : List Entry) (sheet : String × Sheet)
    (hfin : (run_spec env).1 = .finished data sheet) :
    (∀ (k : ℕ) (entry : Entry), data[k]? = some entry →
      ∃ row, env.inputRows[k]? = some row ∧ entry.1 = stripDecimal (pyStr row.2)) ∧
    (∀ entry ∈ data, ∀ x ∈ entry.2,
      x.1 ∈ ((buildMapping env.facilityRows).map Prod.fst)) := by
  by_cases hn : test_network_connectivity env.netOutcome = false
  · rw [run_spec, runWith, if_pos hn] at hfin
    cases hfin
  · rw [run_spec, runWith, if_neg hn] at hfin
    rcases hapi : test_api_connection env.apiOutcome with e | b
    · simp only [hapi] at hfin
      cases hfin
    · rcases b with _ | _
      · simp only [hapi] at hfin
        cases hfin
      · simp only [hapi] at hfin
        rcases employeesLoop_cases env.provider
            ((buildMapping env.facilityRows).map Prod.fst) env.inputRows with
          hel | ⟨data2, log, hel, hlen, hidx, hprops⟩
        · simp only [hel] at hfin
          cases hfin
        · simp only [hel] at hfin
          rcases hgen : generate_output_file data2 (buildMapping env.facilityRows)
              (env.inputRows.map Prod.fst) with er | sh
          · simp only [hgen] at hfin
            cases hfin
          · simp only [hgen] at hfin
            cases hfin
            exact ⟨hidx, hprops⟩

/-- C10: postal codes are handled as strings throughout — stripping the
fractional suffix is exactly "cut at the first dot" (a dot-free code such as
"00501" is preserved verbatim), the normalized employee zip is what is used
as the query origin of every provider call and what is stored (and hence
written to column 2 of the report), and every facility zip in the computed
data is literally one of the input facility zip strings. -/
theorem C10_postal_strings (env : Env) :
    (∀ s t : String, (∀ c ∈ s.data, c ≠ '.') → stripDecimal (s ++ "." ++ t) = s) ∧
    (∀ s : String, (∀ c ∈ s.data, c ≠ '.') → stripDecimal s = s) ∧
    (∀ (keys : List String) (row : String × String) (entry : Entry)
      (diags : List String) (calls : List (String × String)),
      processEmployee (some env.provider) keys row = .ok (entry, diags, calls) →
      entry.1 = stripDecimal (pyStr row.2) ∧
      ∀ c ∈ calls, c.1 = stripDecimal (pyStr row.2)) ∧
    (∀ (data : List Entry) (sheet : String × Sheet),
      (run_spec env).1 = .finished data sheet →
      (∀ (k : ℕ) (entry : Entry), data[k]? = some entry →
        ∃ row, env.inputRows[k]? = some row ∧ entry.1 = stripDecimal (pyStr row.2)) ∧
      (∀ entry ∈ data, ∀ x ∈ entry.2, x.1 ∈ env.facilityRows.map Prod.fst)) := by
  refine ⟨stripDecimal_append, stripDecimal_no_dot, ?_, ?_⟩
  · intro keys row entry diags calls hpe
    simp only [processEmployee, process_distances_batch_some, except_bind_ok] at hpe
    rcases hs : sortEntries (buildResult keys (((facilityBatches keys).map
        (fun b => env.provider (stripDecimal (pyStr row.2))
          (String.intercalate "|" b))).flatten)).1 with e | sorted
    · rw [hs, except_bind_err] at hpe
      cases hpe
    · rw [hs, except_bind_ok] at hpe
      cases hpe
      constructor
      · rfl
      · intro c hc
        obtain ⟨b, hb, rfl⟩ := List.mem_map.mp hc
        rfl
  · intro data sheet hfin
    obtain ⟨hidx, hprops⟩ := run_spec_finished_inv env data sheet hfin
    refine ⟨hidx, ?_⟩
    intro entry he x hx
    exact buildMapping_keys env.facilityRows x.1 (hprops entry he x hx)

/-- C9, witnessed on a concrete environment. -/
theorem C9_airport_lookup_witness :
    (∀ (mapping : List (String × String)) (ds : List (Option String))
      (out : List (String × String)),
      select_top3 ((buildResult (mapping.map Prod.fst) ds).1) = .ok out →
      ∀ x ∈ out, (lookupMapping mapping x.1).isSome) ∧
    (run_spec envHappy).1 ≠ .crashed .keyError :=
  C9_airport_lookup envHappy (by simp [envHappy, test_api_connection])

/-- C8, witnessed on one employee and one facility. -/
theorem C8_report_layout_witness :
    ∃ rows, generate_output_file [("10001", [("00501", "10 km")])] [("00501", "JFK")]
        ["Jane Doe"] = .ok ("Results", headerWrites ++ rows) ∧
      cellAt (headerWrites ++ rows) (1, 1) = some (.str "Employee Name") := by
  obtain ⟨rows, hgen, h11, hrest⟩ := C8_report_layout
    [("10001", [("00501", "10 km")])] [("00501", "JFK")] ["Jane Doe"]
    (by decide) (by decide) (by decide)
  exact ⟨rows, hgen, h11⟩

/-- C10, witnessed: "10001.0" is normalized to "10001", "00501" survives
unchanged, and a finished run only carries facility codes drawn verbatim
from the facility rows. -/
theorem C10_postal_strings_witness :
    stripDecimal ("10001" ++ "." ++ "0") = "10001" ∧
    stripDecimal "00501" = "00501" ∧
    (∃ (data : List Entry) (sheet : String × Sheet),
      (run_spec envHappy).1 = .finished data sheet ∧
      ∀ entry ∈ data, ∀ x ∈ entry.2, x.1 ∈ envHappy.facilityRows.map Prod.fst) := by
  obtain ⟨h1, h2, h3, h4⟩ := C10_postal_strings envHappy
  refine ⟨h1 "10001" "0" (by decide), h2 "00501" (by decide), ?_⟩
  obtain ⟨data, rows, hfin, hlen, hout⟩ := run_spec_finishes envHappy rfl rfl (by
    intro o d t ht
    simp [envHappy] at ht
    rw [ht]
    exact ⟨by decide, by decide⟩)
  exact ⟨data, _, hfin, (h4 data _ hfin).2⟩
